import Mathlib

/-!
# teleport-ui: the fuzzy finder of `internal/ui/fuzzyfinder.go`

A shallow embedding of the finder (`fuzzyMatch`, `filterItems`,
`highlightMatches`, the window computed in `View`, `Update`) and the
properties of it that the specification states.

Modelling conventions.
* A Go `string` is its byte sequence, `GoString := List Nat` (bytes are the
  values below 256).  `for i, char := range s` decodes UTF-8 the way the Go
  runtime does: an invalid byte yields `U+FFFD` and advances by one byte.
* A Go `int` is 64 bits wide.  Arithmetic that can leave that range is wrapped
  with `wrapInt`; guarded increments and decrements that cannot leave it are
  written with plain `Int` arithmetic.
* A run-time panic (index out of range) is the result `none`.
* `strings.ToLower` maps every rune through `unicode.ToLower` and re-encodes
  it.  For a non-ASCII rune `unicode.ToLower` is a lookup in the Unicode case
  table, which is a parameter `tbl : Nat → Nat` of the development.
-/

namespace TeleportUI

open List

/-! ## Go strings -/

/-- A Go string: its bytes. -/
abbrev GoString := List Nat

/-- The replacement character `utf8.RuneError`. -/
def RuneError : Nat := 0xFFFD

/-- Continuation byte test of the runtime decoder (`locb <= b && b <= hicb`). -/
def isCont (b : Nat) : Bool := 0x80 ≤ b && b ≤ 0xBF

/-- The rune that starts the non-empty string `b0 :: rest` and its width in
bytes, as `range` over a string computes them (`runtime.decoderune`, with the
ASCII case the loop handles itself). -/
def decodeRune (b0 : Nat) (rest : GoString) : Nat × Nat :=
  if b0 < 0x80 then (b0, 1)
  else if 0xC0 ≤ b0 && b0 < 0xE0 then
    match rest with
    | b1 :: _ =>
      let r := (b0 % 0x20) * 0x40 + b1 % 0x40
      if isCont b1 && 0x7F < r then (r, 2) else (RuneError, 1)
    | _ => (RuneError, 1)
  else if 0xE0 ≤ b0 && b0 < 0xF0 then
    match rest with
    | b1 :: b2 :: _ =>
      let r := (b0 % 0x10) * 0x1000 + (b1 % 0x40) * 0x40 + b2 % 0x40
      if isCont b1 && isCont b2 && 0x7FF < r && !(0xD800 ≤ r && r ≤ 0xDFFF)
      then (r, 3) else (RuneError, 1)
    | _ => (RuneError, 1)
  else if 0xF0 ≤ b0 && b0 < 0xF8 then
    match rest with
    | b1 :: b2 :: b3 :: _ =>
      let r := (b0 % 0x08) * 0x40000 + (b1 % 0x40) * 0x1000 + (b2 % 0x40) * 0x40 + b3 % 0x40
      if isCont b1 && isCont b2 && isCont b3 && 0xFFFF < r && r ≤ 0x10FFFF
      then (r, 4) else (RuneError, 1)
    | _ => (RuneError, 1)
  else (RuneError, 1)

/-- The pairs `(i, char)` of `for i, char := range s`, for the part of the
string that starts at byte index `i`; `skip` bytes of the rune read last are
still to be passed over. -/
def rangeFrom : Nat → Nat → GoString → List (Nat × Nat)
  | _, _, [] => []
  | 0, i, b :: rest => (i, (decodeRune b rest).1) :: rangeFrom ((decodeRune b rest).2 - 1) (i + 1) rest
  | skip + 1, i, _ :: rest => rangeFrom skip (i + 1) rest

/-- The pairs `(i, char)` of `for i, char := range s`. -/
def rangeString (s : GoString) : List (Nat × Nat) := rangeFrom 0 0 s

/-- The runes of `for _, char := range s`. -/
def runes (s : GoString) : List Nat := (rangeString s).map Prod.snd

/-- The bytes of `string(r)` (`utf8.AppendRune`): surrogates and values
above `U+10FFFF` are written as `U+FFFD`. -/
def encodeRune (r : Nat) : GoString :=
  if r < 0x80 then [r]
  else if r < 0x800 then [0xC0 + r / 0x40, 0x80 + r % 0x40]
  else if (0xD800 ≤ r && r ≤ 0xDFFF) || 0x10FFFF < r then [0xEF, 0xBF, 0xBD]
  else if r < 0x10000 then [0xE0 + r / 0x1000, 0x80 + (r / 0x40) % 0x40, 0x80 + r % 0x40]
  else [0xF0 + r / 0x40000, 0x80 + (r / 0x1000) % 0x40, 0x80 + (r / 0x40) % 0x40, 0x80 + r % 0x40]

/-- The Go string with the text of a Lean string (its UTF-8 encoding). -/
def goString (s : String) : GoString := s.toList.flatMap (fun c => encodeRune c.toNat)

/-- Go's `unicode.ToLower`: ASCII letters by arithmetic, every other rune by
the case table `tbl`. -/
def unicodeToLower (tbl : Nat → Nat) (r : Nat) : Nat :=
  if r ≤ 0x7F then (if 0x41 ≤ r && r ≤ 0x5A then r + 0x20 else r) else tbl r

/-- Go's `strings.ToLower`: each rune of `s` (an invalid byte reads as
`U+FFFD`) is replaced by its lower case and encoded again.  The library's
fast paths (ASCII-only input, unchanged input) return these same bytes. -/
def ToLower (tbl : Nat → Nat) (s : GoString) : GoString :=
  (runes s).flatMap (fun r => encodeRune (unicodeToLower tbl r))

/-- Every byte of the string is an ASCII character. -/
def isASCII (s : GoString) : Prop := ∀ b ∈ s, b < 0x80

instance (s : GoString) : Decidable (isASCII s) := by
  unfold isASCII
  infer_instance

/-! ## fuzzyMatch -/

/-- The loop of `fuzzyMatch` over the remaining runes of `text`, with the
current `queryIdx`; the value at the end of the list is the final
`return queryIdx == len(query)`. -/
def fuzzyLoop (query : GoString) : List Nat → Nat → Bool
  | [], queryIdx => queryIdx == query.length
  | char :: rest, queryIdx =>
    let queryIdx := if queryIdx < query.length && char == query.getD queryIdx 0
      then queryIdx + 1 else queryIdx
    if queryIdx == query.length then true else fuzzyLoop query rest queryIdx

/-- `fuzzyMatch(text, query)`. -/
def fuzzyMatch (text query : GoString) : Bool :=
  if query = [] then true else fuzzyLoop query (runes text) 0

/-! ## The finder -/

/-- The interface `Stringable`: a type with a `String() string` method. -/
class Stringable (α : Type) where
  String : α → GoString

/-- The type `TeleportUser` of `internal/teleport/db.go`: a string that is its
own display string. -/
structure TeleportUser where
  val : GoString
deriving DecidableEq, Repr

instance : Stringable TeleportUser := ⟨TeleportUser.val⟩

/-- The struct `FuzzyFinder[T]`.  `selected` holds the item the pointer refers
to; the four lipgloss styles are constants of the constructor and are left
out. -/
structure FuzzyFinder (α : Type) where
  items : List α
  filteredItems : List α
  cursor : Int
  query : GoString
  selected : Option α
  width : Int
  height : Int
deriving DecidableEq, Repr

/-- The messages `Update` distinguishes: a `tea.WindowSizeMsg`, a `tea.KeyMsg`
(given by the value of `msg.String()`, which bubbletea builds from runes and
key names and which is therefore the UTF-8 encoding of a text), and any other
message. -/
inductive Msg where
  | WindowSizeMsg (Width Height : Int)
  | KeyMsg (s : String)
  | other
deriving DecidableEq, Repr

/-- The command returned by `Update`: `nil` or `tea.Quit`. -/
inductive Cmd where
  | nil
  | Quit
deriving DecidableEq, Repr

/-- `NewFuzzyFinder(items)`. -/
def NewFuzzyFinder {α : Type} (items : List α) : FuzzyFinder α :=
  { items := items, filteredItems := items, cursor := 0, query := [],
    selected := none, width := 0, height := 0 }

/-- `f.filterItems()`. -/
def filterItems {α : Type} [Stringable α] (tbl : Nat → Nat) (f : FuzzyFinder α) :
    FuzzyFinder α :=
  if f.query = [] then { f with filteredItems := f.items }
  else
    let queryLower := ToLower tbl f.query
    { f with filteredItems :=
        f.items.filter (fun item => fuzzyMatch (ToLower tbl (Stringable.String item)) queryLower) }

/-- The element `s[i]` of a slice for an `int` index; `none` is the
index-out-of-range panic. -/
def index {α : Type} (s : List α) (i : Int) : Option α :=
  if i < 0 then none else s[i.toNat]?

/-- `f.Update(msg)`: the new model and the command; `none` is a panic (only
the read `f.filteredItems[f.cursor]` can panic, with a negative cursor). -/
def Update {α : Type} [Stringable α] (tbl : Nat → Nat) (f : FuzzyFinder α) :
    Msg → Option (FuzzyFinder α × Cmd)
  | Msg.WindowSizeMsg w h => some ({ f with width := w, height := h }, Cmd.nil)
  | Msg.KeyMsg s =>
    if s = "ctrl+c" ∨ s = "esc" then some (f, Cmd.Quit)
    else if s = "enter" then
      if (f.filteredItems.length : Int) > 0 ∧ f.cursor < f.filteredItems.length then
        match index f.filteredItems f.cursor with
        | some item => some ({ f with selected := some item }, Cmd.Quit)
        | none => none
      else some (f, Cmd.Quit)
    else if s = "up" ∨ s = "ctrl+k" then
      if f.cursor > 0 then some ({ f with cursor := f.cursor - 1 }, Cmd.nil)
      else some (f, Cmd.nil)
    else if s = "down" ∨ s = "ctrl+j" then
      if f.cursor < (f.filteredItems.length : Int) - 1 then
        some ({ f with cursor := f.cursor + 1 }, Cmd.nil)
      else some (f, Cmd.nil)
    else if s = "backspace" then
      if f.query.length > 0 then
        let f := filterItems tbl { f with query := f.query.dropLast }
        let f := if f.cursor ≥ f.filteredItems.length ∧ f.filteredItems.length > 0
          then { f with cursor := (f.filteredItems.length : Int) - 1 } else f
        let f := if f.filteredItems.length = 0 then { f with cursor := 0 } else f
        some (f, Cmd.nil)
      else some (f, Cmd.nil)
    else if (goString s).length = 1 then
      let f := filterItems tbl { f with query := f.query ++ goString s }
      some ({ f with cursor := 0 }, Cmd.nil)
    else some (f, Cmd.nil)
  | Msg.other => some (f, Cmd.nil)

/-- `f.Selected()`. -/
def Selected {α : Type} (f : FuzzyFinder α) : Option α := f.selected

/-- The models that successive calls of `Update` produce from `f` for the
messages `msgs`, whatever the commands returned. -/
def updates {α : Type} [Stringable α] (tbl : Nat → Nat) (f : FuzzyFinder α) :
    List Msg → Option (FuzzyFinder α)
  | [] => some f
  | m :: ms =>
    match Update tbl f m with
    | some (g, _) => updates tbl g ms
    | none => none

/-- A state reached from `NewFuzzyFinder(items)` by a sequence of `Update`
calls. -/
def Reachable {α : Type} [Stringable α] (tbl : Nat → Nat) (items : List α)
    (f : FuzzyFinder α) : Prop :=
  ∃ msgs : List Msg, updates tbl (NewFuzzyFinder items) msgs = some f

/-- The message is the Commit key. -/
def isCommit : Msg → Bool
  | Msg.KeyMsg s => s == "enter"
  | _ => false

/-- The cursor invariant of the specification: an index into a non-empty
filtered list, and `0` with an empty one. -/
def CursorOK {α : Type} (f : FuzzyFinder α) : Prop :=
  (f.filteredItems ≠ [] → 0 ≤ f.cursor ∧ f.cursor < f.filteredItems.length) ∧
    (f.filteredItems = [] → f.cursor = 0)

/-- The invariant of the states `Update` produces from `NewFuzzyFinder(items)`:
the item list is the one supplied, the query is ASCII, the filtered list is
what `filterItems` computes for the query, and the cursor is in range. -/
structure Inv {α : Type} [Stringable α] (tbl : Nat → Nat) (items : List α)
    (f : FuzzyFinder α) : Prop where
  items_eq : f.items = items
  ascii : isASCII f.query
  filtered : f.filteredItems = (filterItems tbl f).filteredItems
  cursor_nonneg : 0 ≤ f.cursor
  cursor_ok : CursorOK f

/-- The matcher as the specification words it: the characters of the
case-folded query occur, in order and not necessarily next to each other,
among the characters of the case-folded display string. -/
def FoldedSubsequence (tbl : Nat → Nat) (query text : GoString) : Prop :=
  runes (ToLower tbl query) <+ runes (ToLower tbl text)

instance (tbl : Nat → Nat) (query text : GoString) :
    Decidable (FoldedSubsequence tbl query text) := by
  unfold FoldedSubsequence
  infer_instance

/-! ## The window of View -/

/-- The value a 64-bit `int` holds after an operation whose exact result is
`x` (two's complement wrap-around). -/
def wrapInt (x : Int) : Int :=
  (x + 9223372036854775808) % 18446744073709551616 - 9223372036854775808

/-- The row budget `maxItems` of `View` (lines 124-127). -/
def maxItems (height : Int) : Int :=
  let maxItems := wrapInt (height - 5)
  if maxItems < 1 then 10 else maxItems

/-- The pair `(start, end)` that `View` computes (lines 129-143) from the
cursor, `total = len(f.filteredItems)` and `maxItems`. -/
def window (cursor : Int) (total : Nat) (maxItems : Int) : Int × Int :=
  if (total : Int) > maxItems then
    let start :=
      if cursor ≥ maxItems.tdiv 2 then
        let start := wrapInt (cursor - maxItems.tdiv 2)
        if wrapInt (start + maxItems) > total then wrapInt (total - maxItems) else start
      else 0
    let stop := wrapInt (start + maxItems)
    if stop > total then (start, total) else (start, stop)
  else (0, total)

/-- The window policy as the specification words it: everything when
`total <= rows`; otherwise `start = cursor - rows/2` clamped to
`[0, total - rows]` and `end = start + rows` clamped to `total`. -/
def windowPolicy (cursor : Int) (total : Nat) (rows : Int) : Int × Int :=
  if (total : Int) ≤ rows then (0, total)
  else
    let start := max 0 (min (cursor - rows / 2) ((total : Int) - rows))
    (start, min (start + rows) total)

/-! ## highlightMatches and View -/

/-- A piece of the string `highlightMatches` builds: bytes written as they
are, or the rune `char` found at byte index `i` of the text and written
through `matchStyle.Render`. -/
inductive Span where
  | plain (s : GoString)
  | styled (i : Nat) (char : Nat)
deriving DecidableEq, Repr

/-- The loop of `highlightMatches` over the remaining pairs of
`range text`, with the current `queryIdx`; `none` is the panic of
`textLower[i]` with `i` out of range. -/
def highlightLoop (queryLower textLower : GoString) : List (Nat × Nat) → Nat → Option (List Span)
  | [], _ => some []
  | (i, char) :: rest, queryIdx =>
    if queryIdx < queryLower.length then
      match textLower[i]? with
      | none => none
      | some b =>
        if b == queryLower.getD queryIdx 0 then
          (highlightLoop queryLower textLower rest (queryIdx + 1)).map (Span.styled i char :: ·)
        else
          (highlightLoop queryLower textLower rest queryIdx).map (Span.plain (encodeRune char) :: ·)
    else
      (highlightLoop queryLower textLower rest queryIdx).map (Span.plain (encodeRune char) :: ·)

/-- `f.highlightMatches(text)`; `none` is a panic. -/
def highlightMatches {α : Type} (tbl : Nat → Nat) (f : FuzzyFinder α) (text : GoString) :
    Option (List Span) :=
  if f.query = [] then some [Span.plain text]
  else
    let queryLower := ToLower tbl f.query
    let textLower := ToLower tbl text
    highlightLoop queryLower textLower (rangeString text) 0

/-- The byte indices of the text that a result of `highlightMatches` shows in
the match style, in the order written. -/
def styledPositions : List Span → List Nat
  | [] => []
  | Span.plain _ :: rest => styledPositions rest
  | Span.styled i _ :: rest => i :: styledPositions rest

/-- One item line of the frame: whether it carries the cursor marker, and the
highlighted display string. -/
structure Line where
  isCursor : Bool
  text : List Span
deriving DecidableEq, Repr

/-- The frame `View` draws: the query shown after the prompt marker, the item
lines, and whether the "No matches" line is present (the footer is constant). -/
structure Frame where
  query : GoString
  lines : List Line
  noMatches : Bool
deriving DecidableEq, Repr

/-- The item loop of `View` for `n` more iterations from index `i`. -/
def viewLines {α : Type} [Stringable α] (tbl : Nat → Nat) (f : FuzzyFinder α) :
    Nat → Int → Option (List Line)
  | 0, _ => some []
  | n + 1, i =>
    match index f.filteredItems i with
    | none => none
    | some item =>
      match highlightMatches tbl f (Stringable.String item) with
      | none => none
      | some text =>
        (viewLines tbl f n (i + 1)).map ({ isCursor := decide (i = f.cursor), text := text } :: ·)

/-- `f.View()`; `none` is a panic. -/
def View {α : Type} [Stringable α] (tbl : Nat → Nat) (f : FuzzyFinder α) : Option Frame :=
  let w := window f.cursor f.filteredItems.length (maxItems f.height)
  (viewLines tbl f (w.2 - w.1).toNat w.1).map
    (fun lines => { query := f.query, lines := lines,
                    noMatches := decide (f.filteredItems.length = 0) })

/-- An excerpt of the case table of Go's `unicode` package, enough to evaluate
the finder on texts made of ASCII and of these letters: `U+0130` has lower
case `U+0069`, `U+023A` has lower case `U+2C65`, `U+212A` has lower case
`U+006B`; every other rune is left as it is. -/
def caseExcerpt (r : Nat) : Nat :=
  if r = 0x130 then 0x69 else if r = 0x23A then 0x2C65 else if r = 0x212A then 0x6B else r

/-! ## The program -/

/-- The struct `TeleportDBLabels` of `internal/teleport/db.go`. -/
structure TeleportDBLabels where
  CloudProvider : GoString
  DBName : GoString
  Engine : GoString
  Identifier : GoString
  Owner : GoString
deriving DecidableEq, Repr

/-- The struct `TeleportDBMeta`. -/
structure TeleportDBMeta where
  Name : GoString
  Labels : TeleportDBLabels
deriving DecidableEq, Repr

/-- The struct `TeleportUsersList`. -/
structure TeleportUsersList where
  Allowed : List TeleportUser
deriving DecidableEq, Repr

/-- The struct `TeleportDB`. -/
structure TeleportDB where
  Metadata : TeleportDBMeta
  Users : TeleportUsersList
deriving DecidableEq, Repr

/-- The method `TeleportDB.String`: name, engine and owner, with "unknown" for
an empty engine or owner. -/
def TeleportDB.String (db : TeleportDB) : GoString :=
  let engine := if db.Metadata.Labels.Engine = [] then goString "unknown"
    else db.Metadata.Labels.Engine
  let owner := if db.Metadata.Labels.Owner = [] then goString "unknown"
    else db.Metadata.Labels.Owner
  db.Metadata.Name ++ goString " (" ++ engine ++ goString ") - owner: " ++ owner

instance : Stringable TeleportDB := ⟨TeleportDB.String⟩

/-- How `program.Run()` ends: with a final model and no error, with an error
(bubbletea recovers a panic inside `Update` or `View` and reports it as an
error of the run), or not at all because no quit command was ever returned. -/
inductive RunOutcome (α : Type) where
  | model (f : FuzzyFinder α)
  | error
  | pending
deriving DecidableEq, Repr

/-- The event loop of bubbletea's `Program.Run`, a library outside the
repository.  The list holds the messages the loop hands to `Update` before the
quit message ends it, in order: each goes through `Update` and the new model
is drawn with `View`.  `quit` records that an `Update` has returned
`tea.Quit`; the quit message that command produces is delivered after the
messages already queued, so the messages of the list that follow the command
still reach `Update`, and the run ends with the model after the last one. -/
def eventLoop {α : Type} [Stringable α] (tbl : Nat → Nat) (f : FuzzyFinder α) :
    List Msg → Bool → RunOutcome α
  | [], quit => if quit then RunOutcome.model f else RunOutcome.pending
  | m :: ms, quit =>
    match Update tbl f m with
    | none => RunOutcome.error
    | some (g, cmd) =>
      match View tbl g with
      | none => RunOutcome.error
      | some _ =>
        match cmd with
        | Cmd.Quit => eventLoop tbl g ms true
        | Cmd.nil => eventLoop tbl g ms quit

/-- What `RunFuzzyFinder` gives its caller: the pair `(selected, nil)`, the
pair `(nil, err)`, or nothing because the program never quits. -/
inductive RunResult (α : Type) where
  | value (selected : Option α)
  | error
  | pending
deriving DecidableEq, Repr

/-- `RunFuzzyFinder(items)`.  The terminal is the input: `none` when
`program.Run()` cannot start and returns an error, and otherwise the messages
the event loop hands to `Update`.  The program draws the initial model before
the first message. -/
def RunFuzzyFinder {α : Type} [Stringable α] (tbl : Nat → Nat) (items : List α)
    (terminal : Option (List Msg)) : RunResult α :=
  match terminal with
  | none => RunResult.error
  | some msgs =>
    match View tbl (NewFuzzyFinder items) with
    | none => RunResult.error
    | some _ =>
      match eventLoop tbl (NewFuzzyFinder items) msgs false with
      | RunOutcome.model finderModel => RunResult.value (Selected finderModel)
      | RunOutcome.error => RunResult.error
      | RunOutcome.pending => RunResult.pending

/-- How `main` ends: `log.Fatal`, the return after "No database selected", the
call of `ConnectToTeleportDB` with a database and a user (after which `main`
returns, or ends with `log.Fatal` if the call fails), the nil-pointer
dereference of `*selectedDBUser`, or not at all. -/
inductive MainOutcome where
  | fatal
  | noDatabaseSelected
  | connect (db : TeleportDB) (user : TeleportUser)
  | nilDereference
  | pending
deriving DecidableEq, Repr

/-- The function `main`; `dbs` is the result of `GetTeleportDatabases` (`none`
for an error), and the two terminals are the inputs of the two finder runs. -/
def main (tbl : Nat → Nat) (dbs : Option (List TeleportDB))
    (dbTerminal userTerminal : Option (List Msg)) : MainOutcome :=
  match dbs with
  | none => MainOutcome.fatal
  | some dbs =>
    match RunFuzzyFinder tbl dbs dbTerminal with
    | RunResult.error => MainOutcome.fatal
    | RunResult.pending => MainOutcome.pending
    | RunResult.value none => MainOutcome.noDatabaseSelected
    | RunResult.value (some selectedDB) =>
      match RunFuzzyFinder tbl selectedDB.Users.Allowed userTerminal with
      | RunResult.error => MainOutcome.fatal
      | RunResult.pending => MainOutcome.pending
      | RunResult.value none => MainOutcome.nilDereference
      | RunResult.value (some selectedDBUser) => MainOutcome.connect selectedDB selectedDBUser

/-- A database named "orders" with the engine "postgres", no owner, and the
allowed users given. -/
def ordersDB (allowed : List TeleportUser) : TeleportDB :=
  { Metadata := { Name := goString "orders",
                  Labels := { CloudProvider := [], DBName := goString "orders",
                              Engine := goString "postgres", Identifier := [], Owner := [] } },
    Users := { Allowed := allowed } }

/-! ## Runes of ASCII strings -/

theorem decodeRune_ascii (b : Nat) (rest : GoString) (h : b < 0x80) :
    decodeRune b rest = (b, 1) := by
  simp [decodeRune, h]

theorem rangeFrom_ascii_snd (s : GoString) (h : isASCII s) (i : Nat) :
    (rangeFrom 0 i s).map Prod.snd = s := by
  induction s generalizing i with
  | nil => simp [rangeFrom]
  | cons b rest ih =>
    have hb : b < 0x80 := h b (by simp)
    have hrest : isASCII rest := fun c hc => h c (by simp [hc])
    simp [rangeFrom, decodeRune_ascii b rest hb, ih hrest]

theorem runes_ascii (s : GoString) (h : isASCII s) : runes s = s := by
  simpa [runes, rangeString] using rangeFrom_ascii_snd s h 0

/-! ## fuzzyMatch decides the subsequence relation -/

theorem cons_sublist_cons_of_ne {a c : Nat} {l t : List Nat} (h : c ≠ a) :
    (a :: l) <+ (c :: t) ↔ (a :: l) <+ t := by
  constructor
  · intro hs
    rcases List.sublist_cons_iff.mp hs with h1 | ⟨r, hr, _⟩
    · exact h1
    · simp only [List.cons.injEq] at hr
      exact absurd hr.1.symm h
  · intro hs
    exact List.Sublist.cons c hs

theorem drop_eq_getD_cons (q : List Nat) (n : Nat) (h : n < q.length) :
    q.drop n = q.getD n 0 :: q.drop (n + 1) := by
  rw [List.drop_eq_getElem_cons h]
  simp [List.getD, List.getElem?_eq_getElem h]

theorem fuzzyLoop_iff (query : GoString) (chars : List Nat) (queryIdx : Nat)
    (h : queryIdx ≤ query.length) :
    fuzzyLoop query chars queryIdx = true ↔ query.drop queryIdx <+ chars := by
  induction chars generalizing queryIdx with
  | nil =>
    simp only [fuzzyLoop, beq_iff_eq, List.sublist_nil]
    constructor
    · intro he; simp [he]
    · intro hd
      have := congrArg List.length hd
      simp at this
      omega
  | cons c rest ih =>
    rcases Nat.lt_or_ge queryIdx query.length with hlt | hge
    · rw [drop_eq_getD_cons query queryIdx hlt]
      by_cases hc : c = query.getD queryIdx 0
      · subst hc
        by_cases hend : queryIdx + 1 = query.length
        · have hnil : query.drop (queryIdx + 1) = [] := by
            apply List.drop_eq_nil_of_le; omega
          simp [fuzzyLoop, hlt, hend, hnil]
        · simp only [fuzzyLoop, hlt, decide_True, beq_self_eq_true, Bool.and_self, if_true,
            beq_iff_eq, hend, if_false]
          rw [ih (queryIdx + 1) (by omega), List.cons_sublist_cons]
      · have hne : ¬ queryIdx = query.length := by omega
        simp only [fuzzyLoop, hlt, decide_True, Bool.true_and, beq_iff_eq, hc, if_false, hne]
        rw [ih queryIdx h, drop_eq_getD_cons query queryIdx hlt, cons_sublist_cons_of_ne hc]
    · have heq : queryIdx = query.length := by omega
      have hnil : query.drop queryIdx = [] := by
        apply List.drop_eq_nil_of_le; omega
      simp [fuzzyLoop, heq]

/-- On every text and every query, `fuzzyMatch` is true exactly when the
bytes of the query, read as rune values, occur in order among the runes of
the text. -/
theorem fuzzyMatch_iff_bytes (text query : GoString) :
    fuzzyMatch text query = true ↔ query <+ runes text := by
  unfold fuzzyMatch
  by_cases hq : query = []
  · simp [hq]
  · simp only [hq, if_false]
    rw [fuzzyLoop_iff query (runes text) 0 (Nat.zero_le _)]
    simp

/-! ## ToLower on ASCII strings -/

theorem unicodeToLower_ascii (tbl : Nat → Nat) (r : Nat) (h : r < 0x80) :
    unicodeToLower tbl r < 0x80 ∧
      encodeRune (unicodeToLower tbl r) = [unicodeToLower tbl r] := by
  have hle : r ≤ 0x7F := by omega
  have hlow : unicodeToLower tbl r < 0x80 := by
    unfold unicodeToLower
    rw [if_pos hle]
    split
    · rename_i hc
      simp only [Bool.and_eq_true, decide_eq_true_eq] at hc
      omega
    · exact h
  exact ⟨hlow, by simp [encodeRune, hlow]⟩

theorem flatMap_lower_ascii (tbl : Nat → Nat) (s : GoString) (h : isASCII s) :
    isASCII (s.flatMap (fun r => encodeRune (unicodeToLower tbl r))) := by
  intro b hb
  rcases List.mem_flatMap.mp hb with ⟨r, hr, hbr⟩
  have := unicodeToLower_ascii tbl r (h r hr)
  rw [this.2] at hbr
  simp only [List.mem_singleton] at hbr
  omega

theorem ToLower_ascii (tbl : Nat → Nat) (s : GoString) (h : isASCII s) :
    isASCII (ToLower tbl s) := by
  unfold ToLower
  rw [runes_ascii s h]
  exact flatMap_lower_ascii tbl s h

theorem ToLower_nil (tbl : Nat → Nat) : ToLower tbl [] = [] := by
  simp [ToLower, runes, rangeString, rangeFrom]

/-- With an ASCII query, `filterItems` keeps an item exactly when the runes of
the lowered query occur in order among the runes of the lowered display
string. -/
theorem mem_filterItems_iff {α : Type} [Stringable α] (tbl : Nat → Nat)
    (f : FuzzyFinder α) (h : isASCII f.query) (item : α) :
    item ∈ (filterItems tbl f).filteredItems ↔
      item ∈ f.items ∧
        runes (ToLower tbl f.query) <+ runes (ToLower tbl (Stringable.String item)) := by
  unfold filterItems
  by_cases hq : f.query = []
  · simp [hq, ToLower_nil, runes, rangeString, rangeFrom]
  · simp only [hq, if_false, List.mem_filter, fuzzyMatch_iff_bytes]
    rw [runes_ascii _ (ToLower_ascii tbl f.query h)]

/-! ## The states Update produces -/

theorem encodeRune_length_pos (r : Nat) : 1 ≤ (encodeRune r).length := by
  unfold encodeRune
  split_ifs <;> simp

theorem encodeRune_length_one (r : Nat) (h : (encodeRune r).length = 1) :
    r < 0x80 ∧ encodeRune r = [r] := by
  unfold encodeRune at h ⊢
  split_ifs at h ⊢ <;> simp_all

/-- A key string of one byte is an ASCII character. -/
theorem goString_length_one (s : String) (h : (goString s).length = 1) :
    isASCII (goString s) := by
  unfold goString at h ⊢
  generalize s.toList = l at h ⊢
  cases l with
  | nil => simp at h
  | cons c rest =>
    rw [List.flatMap_cons, List.length_append] at h
    have h1 := encodeRune_length_pos c.toNat
    have h2 : (encodeRune c.toNat).length = 1 := by omega
    have h3 : (rest.flatMap (fun c => encodeRune c.toNat)).length = 0 := by omega
    have h4 := encodeRune_length_one c.toNat h2
    rw [List.flatMap_cons, List.length_eq_zero.mp h3, h4.2]
    intro b hb
    simp only [List.append_nil, List.mem_singleton] at hb
    omega

theorem isASCII_append {s t : GoString} (hs : isASCII s) (ht : isASCII t) :
    isASCII (s ++ t) := by
  intro b hb
  rcases List.mem_append.mp hb with h | h
  · exact hs b h
  · exact ht b h

theorem isASCII_dropLast {s : GoString} (hs : isASCII s) : isASCII s.dropLast :=
  fun b hb => hs b (List.mem_of_mem_dropLast hb)

theorem filterItems_filteredItems {α : Type} [Stringable α] (tbl : Nat → Nat)
    (f : FuzzyFinder α) :
    (filterItems tbl f).filteredItems =
      if f.query = [] then f.items
      else f.items.filter
        (fun item => fuzzyMatch (ToLower tbl (Stringable.String item)) (ToLower tbl f.query)) := by
  unfold filterItems
  split <;> rfl

theorem filterItems_fields {α : Type} [Stringable α] (tbl : Nat → Nat) (f : FuzzyFinder α) :
    (filterItems tbl f).items = f.items ∧ (filterItems tbl f).query = f.query ∧
      (filterItems tbl f).cursor = f.cursor ∧ (filterItems tbl f).selected = f.selected ∧
      (filterItems tbl f).width = f.width ∧ (filterItems tbl f).height = f.height := by
  unfold filterItems
  split <;> simp

/-- What `filterItems` computes depends on the item list and the query only. -/
theorem filterItems_congr {α : Type} [Stringable α] (tbl : Nat → Nat) (f g : FuzzyFinder α)
    (hi : g.items = f.items) (hq : g.query = f.query) :
    (filterItems tbl g).filteredItems = (filterItems tbl f).filteredItems := by
  rw [filterItems_filteredItems, filterItems_filteredItems, hi, hq]

theorem filterItems_sublist {α : Type} [Stringable α] (tbl : Nat → Nat) (f : FuzzyFinder α) :
    (filterItems tbl f).filteredItems <+ f.items := by
  rw [filterItems_filteredItems]
  split
  · exact List.Sublist.refl _
  · exact List.filter_sublist _

theorem index_of_lt {α : Type} (s : List α) (i : Int) (h0 : 0 ≤ i) (h1 : i < s.length) :
    ∃ x, index s i = some x ∧ x ∈ s := by
  have hlt : i.toNat < s.length := (Int.toNat_lt h0).mpr h1
  refine ⟨s[i.toNat], ?_, List.getElem_mem hlt⟩
  unfold index
  rw [if_neg (by omega), List.getElem?_eq_getElem hlt]

theorem inv_new {α : Type} [Stringable α] (tbl : Nat → Nat) (items : List α) :
    Inv tbl items (NewFuzzyFinder items) := by
  refine ⟨rfl, ?_, ?_, ?_, ?_⟩
  · intro b hb
    simp [NewFuzzyFinder] at hb
  · simp [filterItems_filteredItems, NewFuzzyFinder]
  · simp [NewFuzzyFinder]
  · constructor
    · intro hne
      have : 0 < items.length := List.length_pos.mpr hne
      simp only [NewFuzzyFinder]
      omega
    · intro _
      rfl

/-- The state after `filterItems` with the cursor set to `c` satisfies the
invariant when `c` is in range of the new filtered list. -/
theorem inv_refilter {α : Type} [Stringable α] (tbl : Nat → Nat) (items : List α)
    (f : FuzzyFinder α) (c : Int) (hi : f.items = items) (ha : isASCII f.query)
    (h0 : 0 ≤ c)
    (hc : ((filterItems tbl f).filteredItems ≠ [] →
        c < ((filterItems tbl f).filteredItems.length : Int)) ∧
      ((filterItems tbl f).filteredItems = [] → c = 0)) :
    Inv tbl items { filterItems tbl f with cursor := c } := by
  have hf := filterItems_fields tbl f
  refine ⟨?_, ?_, ?_, h0, ?_⟩
  · simpa [hf.1] using hi
  · simpa [hf.2.1] using ha
  · exact (filterItems_congr tbl f _ (by simp [hf.1]) (by simp [hf.2.1])).symm
  · exact ⟨fun hne => ⟨h0, hc.1 hne⟩, fun he => hc.2 he⟩

theorem inv_cursor {α : Type} [Stringable α] (tbl : Nat → Nat) (items : List α)
    (f : FuzzyFinder α) (h : Inv tbl items f) (c : Int) (h0 : 0 ≤ c)
    (hc : c < f.filteredItems.length) :
    Inv tbl items { f with cursor := c } := by
  refine ⟨h.items_eq, h.ascii, ?_, h0, ?_⟩
  · exact h.filtered.trans (filterItems_congr tbl f { f with cursor := c } rfl rfl).symm
  · refine ⟨fun _ => ⟨h0, hc⟩, fun he => ?_⟩
    simp only at he
    rw [he] at hc
    simp only [List.length_nil, Nat.cast_zero] at hc
    omega

theorem inv_selected {α : Type} [Stringable α] (tbl : Nat → Nat) (items : List α)
    (f : FuzzyFinder α) (h : Inv tbl items f) (x : Option α) :
    Inv tbl items { f with selected := x } :=
  ⟨h.items_eq, h.ascii,
    h.filtered.trans (filterItems_congr tbl f { f with selected := x } rfl rfl).symm,
    h.cursor_nonneg, h.cursor_ok⟩

theorem inv_size {α : Type} [Stringable α] (tbl : Nat → Nat) (items : List α)
    (f : FuzzyFinder α) (h : Inv tbl items f) (w ht : Int) :
    Inv tbl items { f with width := w, height := ht } :=
  ⟨h.items_eq, h.ascii,
    h.filtered.trans (filterItems_congr tbl f { f with width := w, height := ht } rfl rfl).symm,
    h.cursor_nonneg, h.cursor_ok⟩

/-- The two cursor adjustments of the backspace branch (lines 97-102) set the
cursor to `0` with an empty filtered list and to
`min(cursor, len(filteredItems) - 1)` otherwise. -/
theorem backspace_clamp {α : Type} (f1 : FuzzyFinder α) :
    ∃ c : Int,
      (if (if f1.cursor ≥ f1.filteredItems.length ∧ f1.filteredItems.length > 0
            then { f1 with cursor := (f1.filteredItems.length : Int) - 1 } else f1).filteredItems.length = 0
        then { (if f1.cursor ≥ f1.filteredItems.length ∧ f1.filteredItems.length > 0
            then { f1 with cursor := (f1.filteredItems.length : Int) - 1 } else f1) with cursor := 0 }
        else (if f1.cursor ≥ f1.filteredItems.length ∧ f1.filteredItems.length > 0
            then { f1 with cursor := (f1.filteredItems.length : Int) - 1 } else f1))
        = { f1 with cursor := c } ∧
      ((f1.filteredItems = [] ∧ c = 0) ∨
        (f1.filteredItems ≠ [] ∧ c = min f1.cursor ((f1.filteredItems.length : Int) - 1))) := by
  by_cases he : f1.filteredItems = []
  · refine ⟨0, ?_, Or.inl ⟨he, rfl⟩⟩
    simp [he]
  · have hpos : 0 < f1.filteredItems.length := List.length_pos.mpr he
    by_cases hge : f1.cursor ≥ (f1.filteredItems.length : Int)
    · refine ⟨(f1.filteredItems.length : Int) - 1, ?_, Or.inr ⟨he, ?_⟩⟩
      · have hA : f1.cursor ≥ (f1.filteredItems.length : Int) ∧ f1.filteredItems.length > 0 :=
          ⟨hge, hpos⟩
        simp [hA, he]
      · omega
    · refine ⟨f1.cursor, ?_, Or.inr ⟨he, ?_⟩⟩
      · have hA : ¬ (f1.cursor ≥ (f1.filteredItems.length : Int) ∧ f1.filteredItems.length > 0) :=
          fun hc => hge hc.1
        simp [hA, he]
      · omega

/-- `Update` does not panic on a state that satisfies the invariant, and the
new state satisfies it again. -/
theorem Update_inv {α : Type} [Stringable α] (tbl : Nat → Nat) (items : List α)
    (f : FuzzyFinder α) (h : Inv tbl items f) (m : Msg) :
    ∃ g c, Update tbl f m = some (g, c) ∧ Inv tbl items g := by
  cases m with
  | WindowSizeMsg w ht => exact ⟨_, _, rfl, inv_size tbl items f h w ht⟩
  | other => exact ⟨_, _, rfl, h⟩
  | KeyMsg s =>
    simp only [Update]
    by_cases h1 : s = "ctrl+c" ∨ s = "esc"
    · rw [if_pos h1]
      exact ⟨_, _, rfl, h⟩
    rw [if_neg h1]
    by_cases h2 : s = "enter"
    · rw [if_pos h2]
      by_cases h3 : (f.filteredItems.length : Int) > 0 ∧ f.cursor < f.filteredItems.length
      · rw [if_pos h3]
        obtain ⟨x, hx, _⟩ := index_of_lt f.filteredItems f.cursor h.cursor_nonneg h3.2
        rw [hx]
        exact ⟨_, _, rfl, inv_selected tbl items f h (some x)⟩
      · rw [if_neg h3]
        exact ⟨_, _, rfl, h⟩
    rw [if_neg h2]
    by_cases h4 : s = "up" ∨ s = "ctrl+k"
    · rw [if_pos h4]
      by_cases h5 : f.cursor > 0
      · rw [if_pos h5]
        refine ⟨_, _, rfl, inv_cursor tbl items f h (f.cursor - 1) (by omega) ?_⟩
        by_cases hne : f.filteredItems = []
        · have := h.cursor_ok.2 hne
          omega
        · have := (h.cursor_ok.1 hne).2
          omega
      · rw [if_neg h5]
        exact ⟨_, _, rfl, h⟩
    rw [if_neg h4]
    by_cases h6 : s = "down" ∨ s = "ctrl+j"
    · rw [if_pos h6]
      by_cases h7 : f.cursor < (f.filteredItems.length : Int) - 1
      · rw [if_pos h7]
        have h0 := h.cursor_nonneg
        exact ⟨_, _, rfl, inv_cursor tbl items f h (f.cursor + 1) (by omega) (by omega)⟩
      · rw [if_neg h7]
        exact ⟨_, _, rfl, h⟩
    rw [if_neg h6]
    by_cases h8 : s = "backspace"
    · rw [if_pos h8]
      by_cases h9 : f.query.length > 0
      · rw [if_pos h9]
        refine ⟨_, _, rfl, ?_⟩
        have hi : ({ f with query := f.query.dropLast } : FuzzyFinder α).items = items :=
          h.items_eq
        have ha : isASCII ({ f with query := f.query.dropLast } : FuzzyFinder α).query :=
          isASCII_dropLast h.ascii
        have hcur : (filterItems tbl { f with query := f.query.dropLast }).cursor = f.cursor :=
          (filterItems_fields tbl { f with query := f.query.dropLast }).2.2.1
        have h0 := h.cursor_nonneg
        obtain ⟨c, hc, hcase⟩ := backspace_clamp (filterItems tbl { f with query := f.query.dropLast })
        refine (congrArg (Inv tbl items) hc).mpr ?_
        refine inv_refilter tbl items _ c hi ha ?_ ?_
        · rcases hcase with ⟨_, h3⟩ | ⟨h2, h3⟩
          · omega
          · have := List.length_pos.mpr h2
            omega
        · rcases hcase with ⟨h2, h3⟩ | ⟨h2, h3⟩
          · exact ⟨fun hne => absurd h2 hne, fun _ => h3⟩
          · refine ⟨fun _ => ?_, fun he => absurd he h2⟩
            have := List.length_pos.mpr h2
            omega
      · rw [if_neg h9]
        exact ⟨_, _, rfl, h⟩
    rw [if_neg h8]
    by_cases h10 : (goString s).length = 1
    · rw [if_pos h10]
      refine ⟨_, _, rfl, ?_⟩
      refine inv_refilter tbl items _ 0 h.items_eq
        (isASCII_append h.ascii (goString_length_one s h10)) (le_refl 0) ⟨fun hne => ?_, fun _ => rfl⟩
      have := List.length_pos.mpr hne
      omega
    · rw [if_neg h10]
      exact ⟨_, _, rfl, h⟩

theorem updates_inv {α : Type} [Stringable α] (tbl : Nat → Nat) (items : List α)
    (msgs : List Msg) (f : FuzzyFinder α) (h : Inv tbl items f) :
    ∃ g, updates tbl f msgs = some g ∧ Inv tbl items g := by
  induction msgs generalizing f with
  | nil => exact ⟨f, rfl, h⟩
  | cons m ms ih =>
    obtain ⟨g, c, hg, hinv⟩ := Update_inv tbl items f h m
    obtain ⟨k, hk, hkinv⟩ := ih g hinv
    refine ⟨k, ?_, hkinv⟩
    simp only [updates, hg]
    exact hk

theorem reachable_inv {α : Type} [Stringable α] (tbl : Nat → Nat) (items : List α)
    (f : FuzzyFinder α) (h : Reachable tbl items f) : Inv tbl items f := by
  obtain ⟨msgs, hm⟩ := h
  obtain ⟨g, hg, hinv⟩ := updates_inv tbl items msgs (NewFuzzyFinder items) (inv_new tbl items)
  rw [hm] at hg
  cases hg
  exact hinv

/-- With an ASCII query the list `filterItems` computes is the list of the
items that match in the sense of the specification. -/
theorem filterItems_eq_filter {α : Type} [Stringable α] (tbl : Nat → Nat)
    (f : FuzzyFinder α) (h : isASCII f.query) :
    (filterItems tbl f).filteredItems =
      f.items.filter (fun item => decide (FoldedSubsequence tbl f.query (Stringable.String item))) := by
  rw [filterItems_filteredItems]
  by_cases hq : f.query = []
  · rw [if_pos hq]
    symm
    rw [List.filter_eq_self]
    intro a _
    simp [FoldedSubsequence, hq, ToLower_nil, runes, rangeString, rangeFrom]
  · rw [if_neg hq]
    apply List.filter_congr
    intro x _
    have : fuzzyMatch (ToLower tbl (Stringable.String x)) (ToLower tbl f.query) = true ↔
        FoldedSubsequence tbl f.query (Stringable.String x) := by
      unfold FoldedSubsequence
      rw [runes_ascii _ (ToLower_ascii tbl f.query h)]
      exact fuzzyMatch_iff_bytes _ _
    by_cases hm : fuzzyMatch (ToLower tbl (Stringable.String x)) (ToLower tbl f.query) = true
    · rw [hm]
      exact (decide_eq_true (this.mp hm)).symm
    · have hn : ¬ FoldedSubsequence tbl f.query (Stringable.String x) := fun hs => hm (this.mpr hs)
      rw [Bool.not_eq_true] at hm
      rw [hm]
      exact (decide_eq_false hn).symm

/-- A message that is not the Commit key leaves the selection as it was. -/
theorem Update_selected {α : Type} [Stringable α] (tbl : Nat → Nat) (f g : FuzzyFinder α)
    (m : Msg) (c : Cmd) (hm : isCommit m = false) (hU : Update tbl f m = some (g, c)) :
    g.selected = f.selected := by
  cases m with
  | WindowSizeMsg w ht =>
    simp only [Update, Option.some.injEq, Prod.mk.injEq] at hU
    rw [← hU.1]
  | other =>
    simp only [Update, Option.some.injEq, Prod.mk.injEq] at hU
    rw [← hU.1]
  | KeyMsg s =>
    have h2 : ¬ s = "enter" := by
      intro he
      simp [isCommit, he] at hm
    simp only [Update] at hU
    by_cases h1 : s = "ctrl+c" ∨ s = "esc"
    · rw [if_pos h1] at hU
      simp only [Option.some.injEq, Prod.mk.injEq] at hU
      rw [← hU.1]
    rw [if_neg h1, if_neg h2] at hU
    by_cases h4 : s = "up" ∨ s = "ctrl+k"
    · rw [if_pos h4] at hU
      by_cases h5 : f.cursor > 0
      · rw [if_pos h5] at hU
        simp only [Option.some.injEq, Prod.mk.injEq] at hU
        rw [← hU.1]
      · rw [if_neg h5] at hU
        simp only [Option.some.injEq, Prod.mk.injEq] at hU
        rw [← hU.1]
    rw [if_neg h4] at hU
    by_cases h6 : s = "down" ∨ s = "ctrl+j"
    · rw [if_pos h6] at hU
      by_cases h7 : f.cursor < (f.filteredItems.length : Int) - 1
      · rw [if_pos h7] at hU
        simp only [Option.some.injEq, Prod.mk.injEq] at hU
        rw [← hU.1]
      · rw [if_neg h7] at hU
        simp only [Option.some.injEq, Prod.mk.injEq] at hU
        rw [← hU.1]
    rw [if_neg h6] at hU
    by_cases h8 : s = "backspace"
    · rw [if_pos h8] at hU
      by_cases h9 : f.query.length > 0
      · rw [if_pos h9] at hU
        obtain ⟨k, hk, _⟩ := backspace_clamp (filterItems tbl { f with query := f.query.dropLast })
        simp only [Option.some.injEq, Prod.mk.injEq] at hU
        rw [← hU.1]
        refine (congrArg FuzzyFinder.selected hk).trans ?_
        exact (filterItems_fields tbl { f with query := f.query.dropLast }).2.2.2.1
      · rw [if_neg h9] at hU
        simp only [Option.some.injEq, Prod.mk.injEq] at hU
        rw [← hU.1]
    rw [if_neg h8] at hU
    by_cases h10 : (goString s).length = 1
    · rw [if_pos h10] at hU
      simp only [Option.some.injEq, Prod.mk.injEq] at hU
      rw [← hU.1]
      exact (filterItems_fields tbl { f with query := f.query ++ goString s }).2.2.2.1
    · rw [if_neg h10] at hU
      simp only [Option.some.injEq, Prod.mk.injEq] at hU
      rw [← hU.1]

theorem updates_selected {α : Type} [Stringable α] (tbl : Nat → Nat) (msgs : List Msg)
    (f g : FuzzyFinder α) (hm : ∀ m ∈ msgs, isCommit m = false)
    (hU : updates tbl f msgs = some g) : g.selected = f.selected := by
  induction msgs generalizing f with
  | nil =>
    simp only [updates, Option.some.injEq] at hU
    rw [hU]
  | cons m ms ih =>
    simp only [updates] at hU
    cases hup : Update tbl f m with
    | none => simp [hup] at hU
    | some p =>
      obtain ⟨k, c⟩ := p
      rw [hup] at hU
      have h1 := Update_selected tbl f k m c (hm m (by simp)) hup
      have h2 := ih k (fun x hx => hm x (by simp [hx])) hU
      rw [h2, h1]

/-- The Commit branch of `Update`. -/
theorem Update_enter {α : Type} [Stringable α] (tbl : Nat → Nat) (f : FuzzyFinder α) :
    Update tbl f (Msg.KeyMsg "enter") =
      if (f.filteredItems.length : Int) > 0 ∧ f.cursor < f.filteredItems.length then
        match index f.filteredItems f.cursor with
        | some item => some ({ f with selected := some item }, Cmd.Quit)
        | none => none
      else some (f, Cmd.Quit) := by
  have key : ∀ s : String, s = "enter" → Update tbl f (Msg.KeyMsg s) =
      if (f.filteredItems.length : Int) > 0 ∧ f.cursor < f.filteredItems.length then
        match index f.filteredItems f.cursor with
        | some item => some ({ f with selected := some item }, Cmd.Quit)
        | none => none
      else some (f, Cmd.Quit) := by
    intro s hs
    simp only [Update]
    rw [if_neg (by subst hs; decide), if_pos hs]
  exact key "enter" rfl

/-- The Cancel branch of `Update`. -/
theorem Update_cancel {α : Type} [Stringable α] (tbl : Nat → Nat) (f : FuzzyFinder α)
    (s : String) (hs : s = "ctrl+c" ∨ s = "esc") :
    Update tbl f (Msg.KeyMsg s) = some (f, Cmd.Quit) := by
  simp only [Update]
  rw [if_pos hs]

/-! ## The claims about the matcher and the state machine -/

/-- C1 (amended): for every text and every query made of ASCII characters
(the only characters `Update` appends to the query), `fuzzyMatch(text, query)`
is true if and only if the characters of the query occur in the text as a
subsequence, in order; and `filterItems` with such a query keeps an item if
and only if the case-folded query is a subsequence of the case-folded display
string. -/
theorem fuzzyMatch_iff_subsequence {α : Type} [Stringable α] (tbl : Nat → Nat)
    (text query : GoString) (f : FuzzyFinder α) (item : α) (hq : isASCII query) :
    (fuzzyMatch text query = true ↔ runes query <+ runes text) ∧
      (item ∈ (filterItems tbl { f with query := query }).filteredItems ↔
        item ∈ f.items ∧ FoldedSubsequence tbl query (Stringable.String item)) := by
  constructor
  · rw [runes_ascii query hq]
    exact fuzzyMatch_iff_bytes text query
  · rw [filterItems_eq_filter tbl { f with query := query } hq]
    simp [List.mem_filter]

/-- C1, witness: the theorem at the text "alpha", the query "al" and the
finder of the users alpha, beta, gamma. -/
theorem fuzzyMatch_iff_subsequence_witness :
    isASCII (goString "al") ∧
      (fuzzyMatch (goString "alpha") (goString "al") = true ↔
        runes (goString "al") <+ runes (goString "alpha")) ∧
      ((⟨goString "beta"⟩ : TeleportUser) ∈
          (filterItems caseExcerpt
            { NewFuzzyFinder [(⟨goString "alpha"⟩ : TeleportUser), ⟨goString "beta"⟩] with
              query := goString "al" }).filteredItems ↔
        (⟨goString "beta"⟩ : TeleportUser) ∈
            (NewFuzzyFinder [(⟨goString "alpha"⟩ : TeleportUser), ⟨goString "beta"⟩]).items ∧
          FoldedSubsequence caseExcerpt (goString "al")
            (Stringable.String (⟨goString "beta"⟩ : TeleportUser))) :=
  ⟨by decide,
    fuzzyMatch_iff_subsequence caseExcerpt (goString "alpha") (goString "al")
      (NewFuzzyFinder [(⟨goString "alpha"⟩ : TeleportUser), ⟨goString "beta"⟩])
      ⟨goString "beta"⟩ (by decide)⟩

/-- C1, counterexample: the query "é" (bytes C3 A9) is a subsequence of the
text "é", byte for byte and rune for rune, and `fuzzyMatch` returns false: the
loop compares each rune of the text with one byte of the query. -/
theorem fuzzyMatch_non_ascii_query :
    goString "é" = [0xC3, 0xA9] ∧
      runes (goString "é") <+ runes (goString "é") ∧
      goString "é" <+ goString "é" ∧
      fuzzyMatch (goString "é") (goString "é") = false := by
  decide

/-- C2 (amended): for every finder state whose filtered list is empty, the
Commit key changes nothing in the state (items, query, filtered list, cursor
and selection stay as they were, so no item is selected by it) and it does
emit the quit command: the run ends. -/
theorem enter_on_empty_quits {α : Type} [Stringable α] (tbl : Nat → Nat)
    (f : FuzzyFinder α) (h : f.filteredItems = []) :
    Update tbl f (Msg.KeyMsg "enter") = some (f, Cmd.Quit) := by
  rw [Update_enter, if_neg (by simp [h])]

/-- C2, witness: the finder of the single user alpha after the key "z". -/
theorem enter_on_empty_quits_witness :
    updates caseExcerpt (NewFuzzyFinder [(⟨goString "alpha"⟩ : TeleportUser)]) [Msg.KeyMsg "z"] =
        some { NewFuzzyFinder [(⟨goString "alpha"⟩ : TeleportUser)] with
                filteredItems := [], query := goString "z" } ∧
      Update caseExcerpt
          { NewFuzzyFinder [(⟨goString "alpha"⟩ : TeleportUser)] with
            filteredItems := [], query := goString "z" }
          (Msg.KeyMsg "enter") =
        some ({ NewFuzzyFinder [(⟨goString "alpha"⟩ : TeleportUser)] with
                filteredItems := [], query := goString "z" }, Cmd.Quit) :=
  ⟨by decide, enter_on_empty_quits caseExcerpt _ rfl⟩

/-- C2, counterexample: with items = ["alpha"], after the key "z" the filtered
list is empty, and Enter then returns the quit command (with no selection):
the finder does not stay in Editing. -/
theorem enter_on_empty_not_noop :
    ∃ f : FuzzyFinder TeleportUser,
      updates caseExcerpt (NewFuzzyFinder [⟨goString "alpha"⟩]) [Msg.KeyMsg "z"] = some f ∧
        f.filteredItems = [] ∧
        Update caseExcerpt f (Msg.KeyMsg "enter") = some (f, Cmd.Quit) ∧
        Selected f = none ∧
        Update caseExcerpt f (Msg.KeyMsg "enter") ≠ some (f, Cmd.nil) :=
  ⟨{ NewFuzzyFinder [⟨goString "alpha"⟩] with filteredItems := [], query := goString "z" },
    by decide, rfl, by decide, rfl, by decide⟩

/-- C3: for every item list and every finite sequence of messages, the calls
of `Update` from `NewFuzzyFinder(items)` all return, and the resulting state
has `0 <= cursor < len(filteredItems)` when the filtered list is non-empty and
`cursor == 0` when it is empty. -/
theorem cursor_in_range {α : Type} [Stringable α] (tbl : Nat → Nat) (items : List α)
    (msgs : List Msg) :
    ∃ f, updates tbl (NewFuzzyFinder items) msgs = some f ∧
      (f.filteredItems ≠ [] → 0 ≤ f.cursor ∧ f.cursor < f.filteredItems.length) ∧
      (f.filteredItems = [] → f.cursor = 0) := by
  obtain ⟨f, hf, hinv⟩ := updates_inv tbl items msgs (NewFuzzyFinder items) (inv_new tbl items)
  exact ⟨f, hf, hinv.cursor_ok⟩

/-- C4: in every state reached from `NewFuzzyFinder(items)` by calls of
`Update`, `filteredItems` is the list of the items whose display string
matches the query case-insensitively (the case-folded query is a subsequence
of the case-folded display string), in the order of `items`: a sub-list of
`items`, equal to `items` when the query is empty. -/
theorem filteredItems_exact {α : Type} [Stringable α] (tbl : Nat → Nat) (items : List α)
    (msgs : List Msg) :
    ∃ f, updates tbl (NewFuzzyFinder items) msgs = some f ∧
      f.items = items ∧
      f.filteredItems =
        items.filter (fun item => decide (FoldedSubsequence tbl f.query (Stringable.String item))) ∧
      f.filteredItems <+ items ∧
      (f.query = [] → f.filteredItems = items) := by
  obtain ⟨f, hf, hinv⟩ := updates_inv tbl items msgs (NewFuzzyFinder items) (inv_new tbl items)
  refine ⟨f, hf, hinv.items_eq, ?_, ?_, ?_⟩
  · rw [hinv.filtered, filterItems_eq_filter tbl f hinv.ascii, hinv.items_eq]
  · rw [hinv.filtered, ← hinv.items_eq]
    exact filterItems_sublist tbl f
  · intro hq
    rw [hinv.filtered, filterItems_filteredItems, if_pos hq, hinv.items_eq]

/-! ## The window of View -/

theorem wrapInt_of_range (x : Int) (h1 : -9223372036854775808 ≤ x)
    (h2 : x < 9223372036854775808) : wrapInt x = x := by
  unfold wrapInt
  omega

theorem wrapInt_range (x : Int) :
    -9223372036854775808 ≤ wrapInt x ∧ wrapInt x < 9223372036854775808 := by
  unfold wrapInt
  omega

/-- Where no intermediate value leaves the 64-bit range, the window of `View`
is the one of the specified policy. -/
theorem window_eq_policy (cursor : Int) (total : Nat) (rows : Int) (hr : 1 ≤ rows)
    (hc : 0 ≤ cursor) (hct : cursor ≤ total) (ht : (total : Int) < 4611686018427387904) :
    window cursor total rows = windowPolicy cursor total rows := by
  have hd : rows.tdiv 2 = rows / 2 := Int.tdiv_eq_ediv (by omega) (by omega)
  unfold window windowPolicy
  rw [hd]
  by_cases h1 : (total : Int) > rows
  · rw [if_pos h1, if_neg (show ¬ (total : Int) ≤ rows by omega)]
    have e3 : wrapInt ((total : Int) - rows) = (total : Int) - rows :=
      wrapInt_of_range _ (by omega) (by omega)
    by_cases h2 : cursor ≥ rows / 2
    · have e1 : wrapInt (cursor - rows / 2) = cursor - rows / 2 :=
        wrapInt_of_range _ (by omega) (by omega)
      have e2 : wrapInt (cursor - rows / 2 + rows) = cursor - rows / 2 + rows :=
        wrapInt_of_range _ (by omega) (by omega)
      have e4 : wrapInt ((total : Int) - rows + rows) = (total : Int) - rows + rows :=
        wrapInt_of_range _ (by omega) (by omega)
      simp only [h2, if_true, e1, e2, e3]
      by_cases h3 : cursor - rows / 2 + rows > total
      · simp only [h3, if_true, e4]
        rw [if_neg (show ¬ (total : Int) - rows + rows > total by omega)]
        simp only [Prod.mk.injEq]
        omega
      · simp only [h3, if_false, e2]
        simp only [Prod.mk.injEq]
        omega
    · have e5 : wrapInt (0 + rows) = 0 + rows := wrapInt_of_range _ (by omega) (by omega)
      simp only [h2, if_false, e5]
      rw [if_neg (show ¬ 0 + rows > (total : Int) by omega)]
      simp only [Prod.mk.injEq]
      omega
  · rw [if_neg h1, if_pos (show (total : Int) ≤ rows by omega)]

theorem maxItems_range (height : Int) :
    1 ≤ maxItems height ∧ maxItems height < 9223372036854775808 ∧
      (maxItems height = wrapInt (height - 5) ∨
        (wrapInt (height - 5) < 1 ∧ maxItems height = 10)) := by
  have hw := wrapInt_range (height - 5)
  by_cases h : wrapInt (height - 5) < 1
  · have e : maxItems height = 10 := by
      unfold maxItems
      exact if_pos h
    rw [e]
    exact ⟨by omega, by omega, Or.inr ⟨h, rfl⟩⟩
  · have e : maxItems height = wrapInt (height - 5) := by
      unfold maxItems
      exact if_neg h
    rw [e]
    exact ⟨by omega, by omega, Or.inl rfl⟩

/-- What holds of the window of `View` for every cursor, every length and
every positive row budget that are `int` values, wrap-around included. -/
theorem window_safe (cursor : Int) (total : Nat) (rows : Int) (hr : 1 ≤ rows)
    (hr2 : rows < 9223372036854775808) (hc1 : -9223372036854775808 ≤ cursor)
    (hc2 : cursor < 9223372036854775808) (ht : (total : Int) < 9223372036854775808) :
    0 ≤ (window cursor total rows).1 ∧ (window cursor total rows).2 ≤ total ∧
      (window cursor total rows).2 - (window cursor total rows).1 ≤ rows ∧
      (∀ i : Int, (window cursor total rows).1 ≤ i → i < (window cursor total rows).2 →
        0 ≤ i ∧ i < total) ∧
      (cursor + rows < 9223372036854775808 →
        (window cursor total rows).1 ≤ (window cursor total rows).2) := by
  have hd : rows.tdiv 2 = rows / 2 := Int.tdiv_eq_ediv (by omega) (by omega)
  unfold window
  rw [hd]
  by_cases h1 : (total : Int) > rows
  · rw [if_pos h1]
    have e3 : wrapInt ((total : Int) - rows) = (total : Int) - rows :=
      wrapInt_of_range _ (by omega) (by omega)
    have e4 : wrapInt ((total : Int) - rows + rows) = (total : Int) - rows + rows :=
      wrapInt_of_range _ (by omega) (by omega)
    by_cases h2 : cursor ≥ rows / 2
    · have e1 : wrapInt (cursor - rows / 2) = cursor - rows / 2 :=
        wrapInt_of_range _ (by omega) (by omega)
      simp only [h2, if_true, e1, e3]
      by_cases h3 : wrapInt (cursor - rows / 2 + rows) > total
      · simp only [h3, if_true, e4]
        rw [if_neg (show ¬ (total : Int) - rows + rows > total by omega)]
        refine ⟨by omega, by omega, by omega, fun i hi1 hi2 => by omega, fun _ => by omega⟩
      · simp only [h3, if_false]
        have hw : wrapInt (cursor - rows / 2 + rows) = cursor - rows / 2 + rows ∨
            wrapInt (cursor - rows / 2 + rows) < 0 := by
          unfold wrapInt
          omega
        have hov : cursor + rows < 9223372036854775808 →
            wrapInt (cursor - rows / 2 + rows) = cursor - rows / 2 + rows :=
          fun hlt => wrapInt_of_range _ (by omega) (by omega)
        refine ⟨by omega, by omega, by omega, fun i hi1 hi2 => by omega, fun hlt => ?_⟩
        have := hov hlt
        omega
    · have e5 : wrapInt (0 + rows) = 0 + rows := wrapInt_of_range _ (by omega) (by omega)
      simp only [h2, if_false, e5]
      rw [if_neg (show ¬ 0 + rows > (total : Int) by omega)]
      refine ⟨by omega, by omega, by omega, fun i hi1 hi2 => by omega, fun _ => by omega⟩
  · rw [if_neg h1]
    refine ⟨by omega, by simp, by simp only; omega, fun i hi1 hi2 => ?_, fun _ => by simp⟩
    simp only at hi1 hi2
    omega

/-- C5 (amended): for every total with `0 < total < 2^62`, every cursor with
`0 <= cursor < total` and every `rows >= 1`, the window `(start, end)` that
`View` computes satisfies `0 <= start <= cursor < end <= total` and
`end - start <= max(rows, total)`: the cursor row is inside the rendered
slice. -/
theorem window_contains_cursor (cursor : Int) (total : Nat) (rows : Int)
    (ht0 : 0 < total) (ht : (total : Int) < 4611686018427387904)
    (hc0 : 0 ≤ cursor) (hc : cursor < total) (hr : 1 ≤ rows) :
    0 ≤ (window cursor total rows).1 ∧ (window cursor total rows).1 ≤ cursor ∧
      cursor < (window cursor total rows).2 ∧ (window cursor total rows).2 ≤ total ∧
      (window cursor total rows).2 - (window cursor total rows).1 ≤ max rows total := by
  rw [window_eq_policy cursor total rows hr hc0 (by omega) ht]
  unfold windowPolicy
  by_cases h1 : (total : Int) ≤ rows
  · rw [if_pos h1]
    simp only
    omega
  · rw [if_neg h1]
    simp only
    omega

/-- C5, witness: 20 items, cursor 12, 10 rows give the window (7, 17). -/
theorem window_contains_cursor_witness :
    window 12 20 10 = (7, 17) ∧
      (0 ≤ (window 12 20 10).1 ∧ (window 12 20 10).1 ≤ 12 ∧
        12 < (window 12 20 10).2 ∧ (window 12 20 10).2 ≤ (20 : Nat) ∧
        (window 12 20 10).2 - (window 12 20 10).1 ≤ max 10 ((20 : Nat) : Int)) :=
  ⟨by decide,
    window_contains_cursor 12 20 10 (by decide) (by decide) (by decide) (by decide) (by decide)⟩

/-- C5, counterexample: with `total = 2^63 - 1`, `cursor = 2^63 - 2` and
`rows = 2^62` the sum `start + maxItems` wraps around: the window ends at a
negative index and the cursor is not inside it. -/
theorem window_wraps_large_total :
    (0 : Int) < (9223372036854775807 : Nat) ∧
      (0 : Int) ≤ 9223372036854775806 ∧
      (9223372036854775806 : Int) < (9223372036854775807 : Nat) ∧
      (1 : Int) ≤ 4611686018427387904 ∧
      window 9223372036854775806 9223372036854775807 4611686018427387904 =
        (6917529027641081854, -6917529027641081858) ∧
      ¬ (9223372036854775806 <
        (window 9223372036854775806 9223372036854775807 4611686018427387904).2) := by
  decide

/-- When the sum `start + maxItems` leaves the 64-bit range, the window of
`View` is the pair of `cursor - rows/2` and that sum less `2^64`. -/
theorem window_wrapped (cursor : Int) (total : Nat) (rows : Int) (hr : 1 ≤ rows)
    (hr2 : rows < 9223372036854775808) (hc2 : cursor < 9223372036854775808)
    (ht : (total : Int) < 9223372036854775808)
    (hw : (total : Int) > rows ∧ cursor ≥ rows / 2 ∧
      cursor - rows / 2 + rows ≥ 9223372036854775808) :
    window cursor total rows =
      (cursor - rows / 2, cursor - rows / 2 + rows - 18446744073709551616) := by
  have hd : rows.tdiv 2 = rows / 2 := Int.tdiv_eq_ediv (by omega) (by omega)
  obtain ⟨h1, h2, hov⟩ := hw
  have e1 : wrapInt (cursor - rows / 2) = cursor - rows / 2 :=
    wrapInt_of_range _ (by omega) (by omega)
  have e2 : wrapInt (cursor - rows / 2 + rows) =
      cursor - rows / 2 + rows - 18446744073709551616 := by
    unfold wrapInt
    omega
  have h3 : ¬ cursor - rows / 2 + rows - 18446744073709551616 > (total : Int) := by omega
  unfold window
  rw [hd]
  simp only [h1, h2, if_true, e1, e2, h3, if_false]

/-- When the sum `start + maxItems` stays in the 64-bit range, the window of
`View` has `start <= end`. -/
theorem window_ordered (cursor : Int) (total : Nat) (rows : Int) (hr : 1 ≤ rows)
    (hr2 : rows < 9223372036854775808)
    (ht : (total : Int) < 9223372036854775808)
    (hw : ¬ ((total : Int) > rows ∧ cursor ≥ rows / 2 ∧
      cursor - rows / 2 + rows ≥ 9223372036854775808)) :
    (window cursor total rows).1 ≤ (window cursor total rows).2 := by
  have hd : rows.tdiv 2 = rows / 2 := Int.tdiv_eq_ediv (by omega) (by omega)
  unfold window
  rw [hd]
  by_cases h1 : (total : Int) > rows
  · rw [if_pos h1]
    have e3 : wrapInt ((total : Int) - rows) = (total : Int) - rows :=
      wrapInt_of_range _ (by omega) (by omega)
    have e4 : wrapInt ((total : Int) - rows + rows) = (total : Int) - rows + rows :=
      wrapInt_of_range _ (by omega) (by omega)
    by_cases h2 : cursor ≥ rows / 2
    · have hov : ¬ cursor - rows / 2 + rows ≥ 9223372036854775808 :=
        fun h => hw ⟨h1, h2, h⟩
      have e1 : wrapInt (cursor - rows / 2) = cursor - rows / 2 :=
        wrapInt_of_range _ (by omega) (by omega)
      have e2 : wrapInt (cursor - rows / 2 + rows) = cursor - rows / 2 + rows :=
        wrapInt_of_range _ (by omega) (by omega)
      simp only [h2, if_true, e1, e2, e3]
      by_cases h3 : cursor - rows / 2 + rows > total
      · simp only [h3, if_true, e4]
        rw [if_neg (show ¬ (total : Int) - rows + rows > total by omega)]
        simp only
        omega
      · simp only [h3, if_false, e2]
        omega
    · have e5 : wrapInt (0 + rows) = 0 + rows := wrapInt_of_range _ (by omega) (by omega)
      simp only [h2, if_false, e5]
      rw [if_neg (show ¬ 0 + rows > (total : Int) by omega)]
      simp only
      omega
  · rw [if_neg h1]
    simp only
    omega

/-- The window of `View` has `start <= end` except when the sum
`start + maxItems` leaves the 64-bit range, and then it is the pair of
`cursor - rows/2` and that sum less `2^64`. -/
theorem window_ordered_iff (cursor : Int) (total : Nat) (rows : Int) (hr : 1 ≤ rows)
    (hr2 : rows < 9223372036854775808) (hc2 : cursor < 9223372036854775808)
    (ht : (total : Int) < 9223372036854775808) :
    ((window cursor total rows).1 ≤ (window cursor total rows).2 ↔
        ¬ ((total : Int) > rows ∧ cursor ≥ rows / 2 ∧
          cursor - rows / 2 + rows ≥ 9223372036854775808)) ∧
      (((total : Int) > rows ∧ cursor ≥ rows / 2 ∧
          cursor - rows / 2 + rows ≥ 9223372036854775808) →
        window cursor total rows =
          (cursor - rows / 2, cursor - rows / 2 + rows - 18446744073709551616)) := by
  refine ⟨⟨fun hle hw => ?_, fun hw => window_ordered cursor total rows hr hr2 ht hw⟩,
    fun hw => window_wrapped cursor total rows hr hr2 hc2 ht hw⟩
  rw [window_wrapped cursor total rows hr hr2 hc2 ht hw] at hle
  simp only at hle
  omega

/-- C6 (amended): for every terminal height (zero and negative ones
included), every `int` cursor (in range or not) and every filtered list, the
row budget of `View` is at least 1 (`height - 5`, or the default 10 when that
is below 1), and the window it computes satisfies `0 <= start`,
`end <= total` and `end - start <= rows`, and every index `i` in
`[start, end)` is a valid index of `filteredItems`; `start <= end` holds if
and only if it is not the case that `total > rows`, `cursor >= rows/2` and
`cursor - rows/2 + rows >= 2^63`; in that case the window is
`(cursor - rows/2, cursor - rows/2 + rows - 2^64)`.  In particular
`start <= end` holds whenever `cursor + rows` is below `2^63`. -/
theorem view_window_safe {α : Type} (height cursor : Int) (filteredItems : List α)
    (hc1 : -9223372036854775808 ≤ cursor) (hc2 : cursor < 9223372036854775808)
    (hl : (filteredItems.length : Int) < 9223372036854775808) :
    1 ≤ maxItems height ∧
      (maxItems height = wrapInt (height - 5) ∨
        (wrapInt (height - 5) < 1 ∧ maxItems height = 10)) ∧
      0 ≤ (window cursor filteredItems.length (maxItems height)).1 ∧
      (window cursor filteredItems.length (maxItems height)).2 ≤ filteredItems.length ∧
      (window cursor filteredItems.length (maxItems height)).2 -
        (window cursor filteredItems.length (maxItems height)).1 ≤ maxItems height ∧
      (∀ i : Int, (window cursor filteredItems.length (maxItems height)).1 ≤ i →
        i < (window cursor filteredItems.length (maxItems height)).2 →
        0 ≤ i ∧ i < filteredItems.length ∧ ∃ item, index filteredItems i = some item) ∧
      ((window cursor filteredItems.length (maxItems height)).1 ≤
          (window cursor filteredItems.length (maxItems height)).2 ↔
        ¬ ((filteredItems.length : Int) > maxItems height ∧ cursor ≥ maxItems height / 2 ∧
          cursor - maxItems height / 2 + maxItems height ≥ 9223372036854775808)) ∧
      (((filteredItems.length : Int) > maxItems height ∧ cursor ≥ maxItems height / 2 ∧
          cursor - maxItems height / 2 + maxItems height ≥ 9223372036854775808) →
        window cursor filteredItems.length (maxItems height) =
          (cursor - maxItems height / 2,
            cursor - maxItems height / 2 + maxItems height - 18446744073709551616)) ∧
      (cursor + maxItems height < 9223372036854775808 →
        (window cursor filteredItems.length (maxItems height)).1 ≤
          (window cursor filteredItems.length (maxItems height)).2) := by
  obtain ⟨hm1, hm2, hm3⟩ := maxItems_range height
  obtain ⟨w1, w2, w3, w4, w5⟩ :=
    window_safe cursor filteredItems.length (maxItems height) hm1 hm2 hc1 hc2 hl
  obtain ⟨v1, v2⟩ :=
    window_ordered_iff cursor filteredItems.length (maxItems height) hm1 hm2 hc2 hl
  refine ⟨hm1, hm3, w1, w2, w3, fun i hi1 hi2 => ?_, v1, v2, w5⟩
  obtain ⟨h0, h1⟩ := w4 i hi1 hi2
  obtain ⟨x, hx, _⟩ := index_of_lt filteredItems i h0 h1
  exact ⟨h0, h1, x, hx⟩

/-- C6, witness: height 15 (10 rows), 20 items and the cursor
`9223372036854775800`, far out of range: the start is clamped to
`total - rows`, the window is `(10, 20)`, `start <= end` holds and every
index of the window is valid. -/
theorem view_window_safe_witness :
    maxItems 15 = 10 ∧
      window 9223372036854775800 (List.range 20).length (maxItems 15) = (10, 20) ∧
      (∀ i : Int, (window 9223372036854775800 (List.range 20).length (maxItems 15)).1 ≤ i →
        i < (window 9223372036854775800 (List.range 20).length (maxItems 15)).2 →
        0 ≤ i ∧ i < (List.range 20).length ∧ ∃ item, index (List.range 20) i = some item) ∧
      (window 9223372036854775800 (List.range 20).length (maxItems 15)).1 ≤
        (window 9223372036854775800 (List.range 20).length (maxItems 15)).2 :=
  ⟨by decide, by decide,
    (view_window_safe 15 9223372036854775800 (List.range 20)
      (by decide) (by decide) (by decide)).2.2.2.2.2.1,
    (view_window_safe 15 9223372036854775800 (List.range 20)
      (by decide) (by decide) (by decide)).2.2.2.2.2.2.1.mpr (by decide)⟩

/-- C6, counterexample: with height 15 (10 rows), 20 filtered items and the
cursor `2^63 - 1`, the sum `start + maxItems` wraps around and the window is
`(2^63 - 6, -2^63 + 4)`: `start <= end` fails (no index is read). -/
theorem window_start_after_end :
    maxItems 15 = 10 ∧
      window 9223372036854775807 20 (maxItems 15) =
        (9223372036854775802, -9223372036854775804) ∧
      ¬ ((window 9223372036854775807 20 (maxItems 15)).1 ≤
        (window 9223372036854775807 20 (maxItems 15)).2) := by
  decide

/-- C7 (amended): for every `rows >= 1`, every total below `2^62` and every
cursor with `0 <= cursor < total` (or `cursor = 0` when `total = 0`), the
window computed in `View` is the one of the specified policy: `(0, total)` if
`total <= rows`; otherwise `start = clamp(cursor - rows/2, 0, total - rows)`
and `end = min(start + rows, total)`. -/
theorem window_refines_policy (cursor : Int) (total : Nat) (rows : Int) (hr : 1 ≤ rows)
    (ht : (total : Int) < 4611686018427387904)
    (hc : (0 ≤ cursor ∧ cursor < total) ∨ (cursor = 0 ∧ total = 0)) :
    window cursor total rows = windowPolicy cursor total rows ∧
      ((total : Int) ≤ rows → window cursor total rows = (0, (total : Int))) ∧
      (¬ (total : Int) ≤ rows →
        (window cursor total rows).1 = max 0 (min (cursor - rows / 2) ((total : Int) - rows)) ∧
        (window cursor total rows).2 = min ((window cursor total rows).1 + rows) total) := by
  have h := window_eq_policy cursor total rows hr (by omega) (by omega) ht
  refine ⟨h, fun hle => ?_, fun hgt => ?_⟩
  · rw [h]
    unfold windowPolicy
    rw [if_pos hle]
  · rw [h]
    unfold windowPolicy
    rw [if_neg hgt]
    exact ⟨rfl, rfl⟩

/-- C7, witness: 20 items, cursor 19, 10 rows: the start is clamped to
`total - rows`. -/
theorem window_refines_policy_witness :
    window 19 20 10 = (10, 20) ∧ window 19 20 10 = windowPolicy 19 20 10 :=
  ⟨by decide,
    (window_refines_policy 19 20 10 (by decide) (by decide) (Or.inl ⟨by decide, by decide⟩)).1⟩

/-- C7, counterexample: with `total = 2^63 - 1`, `cursor = 2^63 - 2` and
`rows = 2^62`, the policy gives the window `(2^62 - 1, 2^63 - 1)` and `View`,
whose sum `start + maxItems` wraps around, computes another one. -/
theorem window_differs_large_total :
    windowPolicy 9223372036854775806 9223372036854775807 4611686018427387904 =
        (4611686018427387903, 9223372036854775807) ∧
      window 9223372036854775806 9223372036854775807 4611686018427387904 =
        (6917529027641081854, -6917529027641081858) ∧
      window 9223372036854775806 9223372036854775807 4611686018427387904 ≠
        windowPolicy 9223372036854775806 9223372036854775807 4611686018427387904 := by
  decide

/-! ## highlightMatches -/

/-- C8, the code at the failing input: with the single item "Ⱥa" (bytes C8 BA
61) and the key "a", the item stays in the filtered list (`fuzzyMatch` on the
lowered strings is true), and `highlightMatches` writes both runes of its
display string unstyled: no position is highlighted, where the query has one
character.  The lower case of "Ⱥ" takes three bytes, and the loop reads
`textLower` at the byte offsets of the original text. -/
theorem highlightMatches_misses_match :
    goString "Ⱥa" = [0xC8, 0xBA, 0x61] ∧
      ToLower caseExcerpt (goString "Ⱥa") = [0xE2, 0xB1, 0xA5, 0x61] ∧
      fuzzyMatch (ToLower caseExcerpt (goString "Ⱥa")) (ToLower caseExcerpt (goString "a")) = true ∧
      updates caseExcerpt (NewFuzzyFinder [(⟨goString "Ⱥa"⟩ : TeleportUser)]) [Msg.KeyMsg "a"] =
        some { NewFuzzyFinder [(⟨goString "Ⱥa"⟩ : TeleportUser)] with query := goString "a" } ∧
      highlightMatches caseExcerpt
          { NewFuzzyFinder [(⟨goString "Ⱥa"⟩ : TeleportUser)] with query := goString "a" }
          (goString "Ⱥa") =
        some [Span.plain [0xC8, 0xBA], Span.plain [0x61]] ∧
      styledPositions [Span.plain [0xC8, 0xBA], Span.plain [0x61]] = [] ∧
      (goString "a").length = 1 := by
  decide

/-! ## Commit and Cancel -/

/-- C9: in every state reached from `NewFuzzyFinder(items)` whose filtered
list is non-empty, the Commit key returns the quit command and the state with
the selection set to the filtered item at the cursor, and that item is one of
the items supplied. -/
theorem enter_commits {α : Type} [Stringable α] (tbl : Nat → Nat) (items : List α)
    (f : FuzzyFinder α) (hr : Reachable tbl items f) (hne : f.filteredItems ≠ []) :
    ∃ item, index f.filteredItems f.cursor = some item ∧
      Update tbl f (Msg.KeyMsg "enter") = some ({ f with selected := some item }, Cmd.Quit) ∧
      Selected { f with selected := some item } = some item ∧
      item ∈ items := by
  have hinv := reachable_inv tbl items f hr
  obtain ⟨h0, h1⟩ := hinv.cursor_ok.1 hne
  obtain ⟨x, hx, hmem⟩ := index_of_lt f.filteredItems f.cursor h0 h1
  have hpos : 0 < f.filteredItems.length := List.length_pos.mpr hne
  refine ⟨x, hx, ?_, rfl, ?_⟩
  · rw [Update_enter, if_pos ⟨by omega, h1⟩, hx]
  · have hsub : f.filteredItems <+ items := by
      rw [hinv.filtered, ← hinv.items_eq]
      exact filterItems_sublist tbl f
    exact hsub.subset hmem

/-- C9, witness: with the items alpha, beta, gamma, the key "a" leaves all
three items, the key "l" after it leaves alpha alone, and Enter then commits
alpha. -/
theorem enter_commits_witness :
    (updates caseExcerpt
        (NewFuzzyFinder [(⟨goString "alpha"⟩ : TeleportUser), ⟨goString "beta"⟩, ⟨goString "gamma"⟩])
        [Msg.KeyMsg "a"]).map FuzzyFinder.filteredItems =
        some [⟨goString "alpha"⟩, ⟨goString "beta"⟩, ⟨goString "gamma"⟩] ∧
      (updates caseExcerpt
        (NewFuzzyFinder [(⟨goString "alpha"⟩ : TeleportUser), ⟨goString "beta"⟩, ⟨goString "gamma"⟩])
        [Msg.KeyMsg "a", Msg.KeyMsg "l", Msg.KeyMsg "enter"]).map Selected =
        some (some ⟨goString "alpha"⟩) ∧
      ∃ item : TeleportUser,
        index [(⟨goString "alpha"⟩ : TeleportUser)] 0 = some item ∧
        Update caseExcerpt
            { NewFuzzyFinder [(⟨goString "alpha"⟩ : TeleportUser), ⟨goString "beta"⟩, ⟨goString "gamma"⟩] with
              filteredItems := [⟨goString "alpha"⟩], query := goString "al" }
            (Msg.KeyMsg "enter") =
          some ({ NewFuzzyFinder [(⟨goString "alpha"⟩ : TeleportUser), ⟨goString "beta"⟩, ⟨goString "gamma"⟩] with
              filteredItems := [⟨goString "alpha"⟩], query := goString "al",
              selected := some item }, Cmd.Quit) ∧
        Selected { NewFuzzyFinder [(⟨goString "alpha"⟩ : TeleportUser), ⟨goString "beta"⟩, ⟨goString "gamma"⟩] with
              filteredItems := [⟨goString "alpha"⟩], query := goString "al",
              selected := some item } = some item ∧
        item ∈ [(⟨goString "alpha"⟩ : TeleportUser), ⟨goString "beta"⟩, ⟨goString "gamma"⟩] :=
  ⟨by decide, by decide,
    enter_commits caseExcerpt
      [(⟨goString "alpha"⟩ : TeleportUser), ⟨goString "beta"⟩, ⟨goString "gamma"⟩]
      { NewFuzzyFinder [(⟨goString "alpha"⟩ : TeleportUser), ⟨goString "beta"⟩, ⟨goString "gamma"⟩] with
        filteredItems := [⟨goString "alpha"⟩], query := goString "al" }
      ⟨[Msg.KeyMsg "a", Msg.KeyMsg "l"], by decide⟩ (by decide)⟩

/-- C10: in every state reached from `NewFuzzyFinder(items)` by messages none
of which is the Commit key, the Cancel key (Escape or ctrl+c) returns the quit
command and the state as it was (query, cursor and filtered list unchanged),
and no item is selected. -/
theorem cancel_selects_nothing {α : Type} [Stringable α] (tbl : Nat → Nat) (items : List α)
    (msgs : List Msg) (f : FuzzyFinder α)
    (hu : updates tbl (NewFuzzyFinder items) msgs = some f)
    (hn : ∀ m ∈ msgs, isCommit m = false) (key : String)
    (hk : key = "ctrl+c" ∨ key = "esc") :
    Update tbl f (Msg.KeyMsg key) = some (f, Cmd.Quit) ∧ Selected f = none := by
  refine ⟨Update_cancel tbl f key hk, ?_⟩
  have := updates_selected tbl msgs (NewFuzzyFinder items) f hn hu
  unfold Selected
  rw [this]
  rfl

/-- C10, witness: the items one, two and an immediate Escape. -/
theorem cancel_selects_nothing_witness :
    Update caseExcerpt (NewFuzzyFinder [(⟨goString "one"⟩ : TeleportUser), ⟨goString "two"⟩])
        (Msg.KeyMsg "esc") =
        some (NewFuzzyFinder [(⟨goString "one"⟩ : TeleportUser), ⟨goString "two"⟩], Cmd.Quit) ∧
      Selected (NewFuzzyFinder [(⟨goString "one"⟩ : TeleportUser), ⟨goString "two"⟩]) = none :=
  cancel_selects_nothing caseExcerpt [(⟨goString "one"⟩ : TeleportUser), ⟨goString "two"⟩] []
    (NewFuzzyFinder [(⟨goString "one"⟩ : TeleportUser), ⟨goString "two"⟩]) rfl
    (by simp) "esc" (Or.inr rfl)

/-! ## The editing and navigation keys -/

/-- A key string of one byte is none of the named keys of `Update`. -/
theorem not_named_of_length_one (s : String) (h : (goString s).length = 1) :
    ¬ (s = "ctrl+c" ∨ s = "esc") ∧ ¬ s = "enter" ∧ ¬ (s = "up" ∨ s = "ctrl+k") ∧
      ¬ (s = "down" ∨ s = "ctrl+j") ∧ ¬ s = "backspace" := by
  refine ⟨?_, ?_, ?_, ?_, ?_⟩
  · rintro (hs | hs) <;> (subst hs; exact absurd h (by decide))
  · intro hs
    subst hs
    exact absurd h (by decide)
  · rintro (hs | hs) <;> (subst hs; exact absurd h (by decide))
  · rintro (hs | hs) <;> (subst hs; exact absurd h (by decide))
  · intro hs
    subst hs
    exact absurd h (by decide)

/-- The default branch of `Update` for a key string of one byte. -/
theorem Update_char {α : Type} [Stringable α] (tbl : Nat → Nat) (f : FuzzyFinder α)
    (s : String) (h : (goString s).length = 1) :
    Update tbl f (Msg.KeyMsg s) =
      some ({ filterItems tbl { f with query := f.query ++ goString s } with cursor := 0 },
        Cmd.nil) := by
  obtain ⟨h1, h2, h3, h4, h5⟩ := not_named_of_length_one s h
  simp only [Update]
  rw [if_neg h1, if_neg h2, if_neg h3, if_neg h4, if_neg h5, if_pos h]

/-- The backspace branch of `Update` with a non-empty query. -/
theorem Update_backspace {α : Type} [Stringable α] (tbl : Nat → Nat) (f : FuzzyFinder α)
    (h : f.query ≠ []) :
    ∃ c : Int,
      Update tbl f (Msg.KeyMsg "backspace") =
        some ({ filterItems tbl { f with query := f.query.dropLast } with cursor := c }, Cmd.nil) ∧
      (((filterItems tbl { f with query := f.query.dropLast }).filteredItems = [] ∧ c = 0) ∨
        ((filterItems tbl { f with query := f.query.dropLast }).filteredItems ≠ [] ∧
          c = min f.cursor
            (((filterItems tbl { f with query := f.query.dropLast }).filteredItems.length : Int) - 1))) := by
  have key : ∀ s : String, s = "backspace" → Update tbl f (Msg.KeyMsg s) =
      some (
        (if (if (filterItems tbl { f with query := f.query.dropLast }).cursor ≥
                (filterItems tbl { f with query := f.query.dropLast }).filteredItems.length ∧
                (filterItems tbl { f with query := f.query.dropLast }).filteredItems.length > 0
              then { filterItems tbl { f with query := f.query.dropLast } with
                cursor := ((filterItems tbl { f with query := f.query.dropLast }).filteredItems.length : Int) - 1 }
              else filterItems tbl { f with query := f.query.dropLast }).filteredItems.length = 0
          then { (if (filterItems tbl { f with query := f.query.dropLast }).cursor ≥
                (filterItems tbl { f with query := f.query.dropLast }).filteredItems.length ∧
                (filterItems tbl { f with query := f.query.dropLast }).filteredItems.length > 0
              then { filterItems tbl { f with query := f.query.dropLast } with
                cursor := ((filterItems tbl { f with query := f.query.dropLast }).filteredItems.length : Int) - 1 }
              else filterItems tbl { f with query := f.query.dropLast }) with cursor := 0 }
          else (if (filterItems tbl { f with query := f.query.dropLast }).cursor ≥
                (filterItems tbl { f with query := f.query.dropLast }).filteredItems.length ∧
                (filterItems tbl { f with query := f.query.dropLast }).filteredItems.length > 0
              then { filterItems tbl { f with query := f.query.dropLast } with
                cursor := ((filterItems tbl { f with query := f.query.dropLast }).filteredItems.length : Int) - 1 }
              else filterItems tbl { f with query := f.query.dropLast })), Cmd.nil) := by
    intro s hs
    have hlen : f.query.length > 0 := List.length_pos.mpr h
    simp only [Update]
    rw [if_neg (by subst hs; decide), if_neg (by subst hs; decide), if_neg (by subst hs; decide),
      if_neg (by subst hs; decide), if_pos hs, if_pos hlen]
  obtain ⟨c, hc, hcase⟩ := backspace_clamp (filterItems tbl { f with query := f.query.dropLast })
  refine ⟨c, ?_, ?_⟩
  · rw [key "backspace" rfl, hc]
  · rw [(filterItems_fields tbl { f with query := f.query.dropLast }).2.2.1] at hcase
    exact hcase

/-- C11 (amended): for every finder state and every key press whose string is
one byte long, that is a single ASCII character (none of the named keys has
one byte), `Update` returns no quit command and the state with that character
appended to the query, with `filteredItems` the items that match the new
query, in order, with the cursor at 0 whatever it was, and with the items and
the selection as they were. -/
theorem char_key_appends {α : Type} [Stringable α] (tbl : Nat → Nat) (f : FuzzyFinder α)
    (s : String) (h : (goString s).length = 1) :
    ∃ g, Update tbl f (Msg.KeyMsg s) = some (g, Cmd.nil) ∧
      g.query = f.query ++ goString s ∧
      g.filteredItems = (filterItems tbl { f with query := f.query ++ goString s }).filteredItems ∧
      g.filteredItems = f.items.filter (fun item =>
        fuzzyMatch (ToLower tbl (Stringable.String item)) (ToLower tbl (f.query ++ goString s))) ∧
      g.cursor = 0 ∧ g.items = f.items ∧ g.selected = f.selected ∧
      g.width = f.width ∧ g.height = f.height := by
  have hf := filterItems_fields tbl { f with query := f.query ++ goString s }
  have hne : f.query ++ goString s ≠ [] := by
    intro he
    have := congrArg List.length he
    simp only [List.length_append, List.length_nil] at this
    omega
  refine ⟨_, Update_char tbl f s h, hf.2.1, rfl, ?_, rfl, hf.1, hf.2.2.2.1, hf.2.2.2.2.1,
    hf.2.2.2.2.2⟩
  show (filterItems tbl { f with query := f.query ++ goString s }).filteredItems = _
  rw [filterItems_filteredItems, if_neg hne]

/-- C11, witness: the key "l" in the finder of alpha, beta, gamma with the
query "a" and the cursor on the third item. -/
theorem char_key_appends_witness :
    Update caseExcerpt
        { NewFuzzyFinder [(⟨goString "alpha"⟩ : TeleportUser), ⟨goString "beta"⟩, ⟨goString "gamma"⟩] with
          query := goString "a", cursor := 2 }
        (Msg.KeyMsg "l") =
      some ({ NewFuzzyFinder [(⟨goString "alpha"⟩ : TeleportUser), ⟨goString "beta"⟩, ⟨goString "gamma"⟩] with
          query := goString "al", filteredItems := [⟨goString "alpha"⟩], cursor := 0 }, Cmd.nil) ∧
      ∃ g, Update caseExcerpt
          { NewFuzzyFinder [(⟨goString "alpha"⟩ : TeleportUser), ⟨goString "beta"⟩, ⟨goString "gamma"⟩] with
            query := goString "a", cursor := 2 }
          (Msg.KeyMsg "l") = some (g, Cmd.nil) ∧ g.cursor = 0 :=
  ⟨by decide,
    (char_key_appends caseExcerpt
      { NewFuzzyFinder [(⟨goString "alpha"⟩ : TeleportUser), ⟨goString "beta"⟩, ⟨goString "gamma"⟩] with
        query := goString "a", cursor := 2 }
      "l" (by decide)).imp (fun _ hg => ⟨hg.1, hg.2.2.2.2.1⟩)⟩

/-- C11, counterexample: the key "é" is a single printable character and none
of the named keys, and its string has two bytes; `Update` takes the test
`len(msg.String()) == 1` for false and returns the state as it was: the
character is not appended to the query. -/
theorem multibyte_key_ignored :
    ("é" : String).length = 1 ∧ goString "é" = [0xC3, 0xA9] ∧
      Update caseExcerpt (NewFuzzyFinder [(⟨goString "café"⟩ : TeleportUser)]) (Msg.KeyMsg "é") =
        some (NewFuzzyFinder [(⟨goString "café"⟩ : TeleportUser)], Cmd.nil) ∧
      (NewFuzzyFinder [(⟨goString "café"⟩ : TeleportUser)]).query = [] ∧
      (NewFuzzyFinder [(⟨goString "café"⟩ : TeleportUser)]).query ++ goString "é" ≠ [] := by
  decide

/-- C12 (amended): for every finder state, Backspace with a non-empty query
returns no quit command and the state whose query is the old one without its
last byte, which is exactly its last character whenever the query is ASCII
(as it is in every state `Update` builds), whose `filteredItems` is what
`filterItems` computes for the shortened query, and whose cursor is
`min(old cursor, len(filteredItems) - 1)`, or 0 if the new filtered list is
empty; with an empty query it returns the state as it was. -/
theorem backspace_removes_last {α : Type} [Stringable α] (tbl : Nat → Nat)
    (f : FuzzyFinder α) :
    (f.query ≠ [] →
      ∃ g, Update tbl f (Msg.KeyMsg "backspace") = some (g, Cmd.nil) ∧
        g.query = f.query.dropLast ∧
        (∃ b, f.query = g.query ++ [b]) ∧
        (isASCII f.query → runes g.query = (runes f.query).dropLast) ∧
        g.filteredItems = (filterItems tbl { f with query := f.query.dropLast }).filteredItems ∧
        (g.filteredItems = [] → g.cursor = 0) ∧
        (g.filteredItems ≠ [] → g.cursor = min f.cursor ((g.filteredItems.length : Int) - 1)) ∧
        g.items = f.items ∧ g.selected = f.selected) ∧
      (f.query = [] → Update tbl f (Msg.KeyMsg "backspace") = some (f, Cmd.nil)) := by
  constructor
  · intro hne
    obtain ⟨c, hU, hcase⟩ := Update_backspace tbl f hne
    have hf := filterItems_fields tbl { f with query := f.query.dropLast }
    refine ⟨_, hU, hf.2.1, ⟨f.query.getLast hne, ?_⟩, ?_, rfl, ?_, ?_, hf.1, hf.2.2.2.1⟩
    · show f.query = (filterItems tbl { f with query := f.query.dropLast }).query ++ _
      rw [hf.2.1]
      exact (List.dropLast_append_getLast hne).symm
    · intro ha
      show runes (filterItems tbl { f with query := f.query.dropLast }).query = _
      rw [hf.2.1, runes_ascii _ ha]
      exact runes_ascii _ (isASCII_dropLast ha)
    · intro he
      rcases hcase with ⟨_, h2⟩ | ⟨h1, _⟩
      · exact h2
      · exact absurd he h1
    · intro hn
      rcases hcase with ⟨h1, _⟩ | ⟨_, h2⟩
      · exact absurd h1 hn
      · exact h2
  · intro he
    have key : ∀ s : String, s = "backspace" → Update tbl f (Msg.KeyMsg s) = some (f, Cmd.nil) := by
      intro s hs
      simp only [Update]
      rw [if_neg (by subst hs; decide), if_neg (by subst hs; decide),
        if_neg (by subst hs; decide), if_neg (by subst hs; decide), if_pos hs,
        if_neg (by simp [he])]
    exact key "backspace" rfl

/-- C12, witness: Backspace in the finder of alpha, beta, gamma with the ASCII
query "al" gives the query "a", one character shorter, and all three items. -/
theorem backspace_removes_last_witness :
    isASCII (goString "al") ∧
      ∃ g, Update caseExcerpt
          { NewFuzzyFinder [(⟨goString "alpha"⟩ : TeleportUser), ⟨goString "beta"⟩, ⟨goString "gamma"⟩] with
            query := goString "al", filteredItems := [⟨goString "alpha"⟩] }
          (Msg.KeyMsg "backspace") = some (g, Cmd.nil) ∧
        g.query = goString "a" ∧
        runes g.query = (runes (goString "al")).dropLast ∧
        g.filteredItems = [⟨goString "alpha"⟩, ⟨goString "beta"⟩, ⟨goString "gamma"⟩] :=
  ⟨by decide,
    ((backspace_removes_last caseExcerpt
      { NewFuzzyFinder [(⟨goString "alpha"⟩ : TeleportUser), ⟨goString "beta"⟩, ⟨goString "gamma"⟩] with
        query := goString "al", filteredItems := [⟨goString "alpha"⟩] }).1 (by decide)).imp
      (fun _ hg => ⟨hg.1, hg.2.1.trans (by decide), hg.2.2.2.1 (by decide),
        hg.2.2.2.2.1.trans (by decide)⟩)⟩

/-- C12, counterexample: in the finder state with the query "é" (one character,
bytes C3 A9), Backspace leaves the query with the byte C3, which reads as the
one character `U+FFFD`: the last character is not removed, it is cut in two. -/
theorem backspace_cuts_character :
    runes (goString "é") = [0xE9] ∧
      Update caseExcerpt
          { NewFuzzyFinder [(⟨goString "alpha"⟩ : TeleportUser)] with query := goString "é" }
          (Msg.KeyMsg "backspace") =
        some ({ NewFuzzyFinder [(⟨goString "alpha"⟩ : TeleportUser)] with
          query := [0xC3], filteredItems := [] }, Cmd.nil) ∧
      runes [0xC3] = [0xFFFD] ∧
      runes [0xC3] ≠ (runes (goString "é")).dropLast := by
  decide

/-- The Move-up branch of `Update`. -/
theorem Update_up {α : Type} [Stringable α] (tbl : Nat → Nat) (f : FuzzyFinder α)
    (s : String) (hs : s = "up" ∨ s = "ctrl+k") :
    Update tbl f (Msg.KeyMsg s) =
      if f.cursor > 0 then some ({ f with cursor := f.cursor - 1 }, Cmd.nil)
      else some (f, Cmd.nil) := by
  simp only [Update]
  rw [if_neg (by rcases hs with h | h <;> (subst h; decide)),
    if_neg (by rcases hs with h | h <;> (subst h; decide)), if_pos hs]

/-- The Move-down branch of `Update`. -/
theorem Update_down {α : Type} [Stringable α] (tbl : Nat → Nat) (f : FuzzyFinder α)
    (s : String) (hs : s = "down" ∨ s = "ctrl+j") :
    Update tbl f (Msg.KeyMsg s) =
      if f.cursor < (f.filteredItems.length : Int) - 1 then
        some ({ f with cursor := f.cursor + 1 }, Cmd.nil)
      else some (f, Cmd.nil) := by
  simp only [Update]
  rw [if_neg (by rcases hs with h | h <;> (subst h; decide)),
    if_neg (by rcases hs with h | h <;> (subst h; decide)),
    if_neg (by rcases hs with h | h <;> (subst h; decide)), if_pos hs]

theorem with_cursor_self {α : Type} (f : FuzzyFinder α) (c : Int) (h : c = f.cursor) :
    ({ f with cursor := c } : FuzzyFinder α) = f := by
  subst h
  rfl

/-- C13: for every finder state that satisfies the cursor invariant, the
Move-up key (`up`, `ctrl+k`) sets the cursor to `max(cursor - 1, 0)` and the
Move-down key (`down`, `ctrl+j`) sets it to
`min(cursor + 1, len(filteredItems) - 1)`, and changes nothing when the
filtered list is empty; both return no quit command and leave every other
field (items, query, filtered list, selection) as it was. -/
theorem move_keys_clamp {α : Type} [Stringable α] (tbl : Nat → Nat) (f : FuzzyFinder α)
    (h : CursorOK f) :
    (∀ s : String, s = "up" ∨ s = "ctrl+k" →
      Update tbl f (Msg.KeyMsg s) = some ({ f with cursor := max (f.cursor - 1) 0 }, Cmd.nil)) ∧
    (∀ s : String, s = "down" ∨ s = "ctrl+j" →
      (f.filteredItems ≠ [] →
        Update tbl f (Msg.KeyMsg s) =
          some ({ f with cursor := min (f.cursor + 1) ((f.filteredItems.length : Int) - 1) },
            Cmd.nil)) ∧
      (f.filteredItems = [] → Update tbl f (Msg.KeyMsg s) = some (f, Cmd.nil))) := by
  have h0 : 0 ≤ f.cursor := by
    by_cases he : f.filteredItems = []
    · rw [h.2 he]
    · exact (h.1 he).1
  constructor
  · intro s hs
    rw [Update_up tbl f s hs]
    by_cases hc : f.cursor > 0
    · rw [if_pos hc, max_eq_left (by omega)]
    · rw [if_neg hc, with_cursor_self f _ (by omega)]
  · intro s hs
    rw [Update_down tbl f s hs]
    constructor
    · intro hne
      have hlt := (h.1 hne).2
      by_cases hc : f.cursor < (f.filteredItems.length : Int) - 1
      · rw [if_pos hc, min_eq_left (by omega)]
      · rw [if_neg hc, with_cursor_self f _ (by omega)]
    · intro he
      have hc := h.2 he
      rw [if_neg (by rw [he, hc]; simp)]

/-- C13, witness: three items with the cursor on the last one: Move-down
leaves the cursor at 2 and Move-up moves it to 1. -/
theorem move_keys_clamp_witness :
    Update caseExcerpt
        { NewFuzzyFinder [(⟨goString "alpha"⟩ : TeleportUser), ⟨goString "beta"⟩, ⟨goString "gamma"⟩] with
          cursor := 2 }
        (Msg.KeyMsg "up") =
      some ({ NewFuzzyFinder [(⟨goString "alpha"⟩ : TeleportUser), ⟨goString "beta"⟩, ⟨goString "gamma"⟩] with
          cursor := max (2 - 1) 0 }, Cmd.nil) ∧
      max ((2 : Int) - 1) 0 = 1 :=
  ⟨(move_keys_clamp caseExcerpt
      { NewFuzzyFinder [(⟨goString "alpha"⟩ : TeleportUser), ⟨goString "beta"⟩, ⟨goString "gamma"⟩] with
        cursor := 2 }
      ⟨fun _ => ⟨by decide, by decide⟩, fun he => absurd he (by decide)⟩).1 "up" (Or.inl rfl),
    by decide⟩

/-- C14: for every finder state, a terminal-size-change message changes only
the stored width and height, and a message that is neither a size change nor
one of the recognised keys (another message type, or a key string that is no
named key and does not have one byte) changes nothing; in both cases no quit
command is returned. -/
theorem other_messages_frame {α : Type} [Stringable α] (tbl : Nat → Nat) (f : FuzzyFinder α) :
    (∀ w h : Int, ∃ g, Update tbl f (Msg.WindowSizeMsg w h) = some (g, Cmd.nil) ∧
      g.width = w ∧ g.height = h ∧ g.items = f.items ∧ g.query = f.query ∧
      g.filteredItems = f.filteredItems ∧ g.cursor = f.cursor ∧ g.selected = f.selected) ∧
    Update tbl f Msg.other = some (f, Cmd.nil) ∧
    (∀ s : String, ¬ (s = "ctrl+c" ∨ s = "esc") → ¬ s = "enter" → ¬ (s = "up" ∨ s = "ctrl+k") →
      ¬ (s = "down" ∨ s = "ctrl+j") → ¬ s = "backspace" → (goString s).length ≠ 1 →
      Update tbl f (Msg.KeyMsg s) = some (f, Cmd.nil)) := by
  refine ⟨fun w h => ⟨_, rfl, rfl, rfl, rfl, rfl, rfl, rfl, rfl⟩, rfl, ?_⟩
  intro s h1 h2 h3 h4 h5 h6
  simp only [Update]
  rw [if_neg h1, if_neg h2, if_neg h3, if_neg h4, if_neg h5, if_neg h6]

/-- C14, witness: the key string "tab" and a resize to 80 by 24 in the finder
of alpha and beta. -/
theorem other_messages_frame_witness :
    Update caseExcerpt (NewFuzzyFinder [(⟨goString "alpha"⟩ : TeleportUser), ⟨goString "beta"⟩])
        (Msg.KeyMsg "tab") =
      some (NewFuzzyFinder [(⟨goString "alpha"⟩ : TeleportUser), ⟨goString "beta"⟩], Cmd.nil) ∧
    Update caseExcerpt (NewFuzzyFinder [(⟨goString "alpha"⟩ : TeleportUser), ⟨goString "beta"⟩])
        (Msg.WindowSizeMsg 80 24) =
      some ({ NewFuzzyFinder [(⟨goString "alpha"⟩ : TeleportUser), ⟨goString "beta"⟩] with
        width := 80, height := 24 }, Cmd.nil) :=
  ⟨(other_messages_frame caseExcerpt
      (NewFuzzyFinder [(⟨goString "alpha"⟩ : TeleportUser), ⟨goString "beta"⟩])).2.2 "tab"
      (by decide) (by decide) (by decide) (by decide) (by decide) (by decide),
    by decide⟩

/-! ## The list filter -/

/-- C15: for every item list, `filterItems` with the empty query sets
`filteredItems` to the item list itself (same elements, same order, same
length) and changes no other field. -/
theorem filter_empty_query {α : Type} [Stringable α] (tbl : Nat → Nat) (f : FuzzyFinder α) :
    (filterItems tbl { f with query := [] }).filteredItems = f.items ∧
      (filterItems tbl { f with query := [] }).filteredItems.length = f.items.length ∧
      filterItems tbl { f with query := [] } = { f with query := [], filteredItems := f.items } := by
  have h : filterItems tbl { f with query := [] } =
      { f with query := [], filteredItems := f.items } := by
    unfold filterItems
    rw [if_pos rfl]
  rw [h]
  exact ⟨rfl, rfl, rfl⟩

/-- C16: for every item list and every query, filtering the result of
`filterItems` again with the same query gives that result: applied to the
state whose items are the filtered list, `filterItems` computes the same
filtered list, and applied twice to a state it gives what it gives once. -/
theorem filter_idempotent {α : Type} [Stringable α] (tbl : Nat → Nat) (f : FuzzyFinder α) :
    (filterItems tbl { f with items := (filterItems tbl f).filteredItems }).filteredItems =
        (filterItems tbl f).filteredItems ∧
      filterItems tbl (filterItems tbl f) = filterItems tbl f := by
  constructor
  · rw [filterItems_filteredItems, filterItems_filteredItems]
    by_cases hq : f.query = []
    · simp only [hq, if_true]
    · simp only [hq, if_false, List.filter_filter, Bool.and_self]
  · unfold filterItems
    by_cases hq : f.query = []
    · simp only [hq, if_true]
    · simp only [hq, if_false]

/-! ## Typing narrows the list -/

/-- An ASCII byte appended to a string does not change the rune decoded at an
earlier position, and a decoded rune never extends past the end of the string. -/
theorem decodeRune_append_ascii (b : Nat) (rest : GoString) (c : Nat) (hc : c < 0x80) :
    decodeRune b (rest ++ [c]) = decodeRune b rest ∧ (decodeRune b rest).2 - 1 ≤ rest.length := by
  have hcont : isCont c = false := by
    simp only [isCont, Bool.and_eq_false_iff, decide_eq_false_iff_not]
    omega
  rcases rest with _ | ⟨b1, _ | ⟨b2, _ | ⟨b3, r⟩⟩⟩
  all_goals
    simp only [decodeRune, List.nil_append, List.cons_append, hcont, Bool.false_and,
      Bool.and_false, List.length_nil, List.length_cons]
    split_ifs <;> first | contradiction | simp

theorem rangeFrom_append_ascii (c : Nat) (hc : c < 0x80) (q : GoString) (skip i : Nat)
    (h : skip ≤ q.length) :
    rangeFrom skip i (q ++ [c]) = rangeFrom skip i q ++ [(i + q.length, c)] := by
  induction q generalizing skip i with
  | nil =>
    have h0 : skip = 0 := by simpa using h
    subst h0
    simp [rangeFrom, decodeRune_ascii c [] hc]
  | cons b rest ih =>
    cases skip with
    | zero =>
      obtain ⟨h1, h2⟩ := decodeRune_append_ascii b rest c hc
      simp only [List.cons_append, rangeFrom, List.append_eq, h1, List.length_cons]
      rw [ih _ (i + 1) h2]
      simp only [List.cons_append, List.cons.injEq, true_and, List.append_cancel_left_eq,
        Prod.mk.injEq, and_true]
      omega
    | succ k =>
      simp only [List.cons_append, rangeFrom, List.append_eq, List.length_cons]
      rw [ih k (i + 1) (by simpa using h)]
      simp only [List.append_cancel_left_eq, List.cons.injEq, Prod.mk.injEq, and_true]
      omega

/-- The runes of a string followed by an ASCII byte are the runes of the
string followed by that byte. -/
theorem runes_append_ascii (q : GoString) (c : Nat) (hc : c < 0x80) :
    runes (q ++ [c]) = runes q ++ [c] := by
  simp [runes, rangeString, rangeFrom_append_ascii c hc q 0 0 (Nat.zero_le _)]

theorem ToLower_append_ascii (tbl : Nat → Nat) (q : GoString) (c : Nat) (hc : c < 0x80) :
    ToLower tbl (q ++ [c]) = ToLower tbl q ++ [unicodeToLower tbl c] := by
  unfold ToLower
  rw [runes_append_ascii q c hc, List.flatMap_append]
  simp [(unicodeToLower_ascii tbl c hc).2]

/-- An item that matches a query followed by an ASCII character matches the
query. -/
theorem fuzzyMatch_narrow (tbl : Nat → Nat) (text q : GoString) (c : Nat) (hc : c < 0x80)
    (h : fuzzyMatch text (ToLower tbl (q ++ [c])) = true) :
    fuzzyMatch text (ToLower tbl q) = true := by
  rw [fuzzyMatch_iff_bytes] at h ⊢
  rw [ToLower_append_ascii tbl q c hc] at h
  exact (List.sublist_append_left _ _).trans h

/-- The filtered list for a query followed by an ASCII character is a
sub-list of the filtered list for the query. -/
theorem filterItems_narrow {α : Type} [Stringable α] (tbl : Nat → Nat) (f : FuzzyFinder α)
    (c : Nat) (hc : c < 0x80) :
    (filterItems tbl { f with query := f.query ++ [c] }).filteredItems <+
      (filterItems tbl f).filteredItems := by
  rw [filterItems_filteredItems, filterItems_filteredItems]
  rw [if_neg (show ¬ f.query ++ [c] = [] by simp)]
  by_cases hq : f.query = []
  · rw [if_pos hq]
    exact List.filter_sublist _
  · rw [if_neg hq]
    exact List.monotone_filter_right _ (fun a ha => fuzzyMatch_narrow tbl _ f.query c hc ha)

theorem goString_singleton (s : String) (h : (goString s).length = 1) :
    ∃ c, c < 0x80 ∧ goString s = [c] := by
  have ha := goString_length_one s h
  cases hg : goString s with
  | nil => simp [hg] at h
  | cons c rest =>
    cases rest with
    | nil => exact ⟨c, ha c (by simp [hg]), rfl⟩
    | cons d r => simp [hg] at h

/-- A string that follows a byte which is not a continuation byte does not
change the rune decoded at an earlier position. -/
theorem decodeRune_append_start (b : Nat) (rest : GoString) (c : Nat) (t : GoString)
    (hcont : isCont c = false) :
    decodeRune b (rest ++ c :: t) = decodeRune b rest ∧
      (decodeRune b rest).2 - 1 ≤ rest.length := by
  rcases rest with _ | ⟨b1, _ | ⟨b2, _ | ⟨b3, r⟩⟩⟩ <;> rcases t with _ | ⟨t1, _ | ⟨t2, t3⟩⟩
  all_goals
    simp only [decodeRune, List.nil_append, List.cons_append, hcont, Bool.false_and,
      Bool.and_false, List.length_nil, List.length_cons]
    split_ifs <;> first | contradiction | simp

theorem rangeFrom_append_start (c : Nat) (t : GoString) (hcont : isCont c = false)
    (q : GoString) (skip i : Nat) (h : skip ≤ q.length) :
    rangeFrom skip i (q ++ c :: t) = rangeFrom skip i q ++ rangeFrom 0 (i + q.length) (c :: t) := by
  induction q generalizing skip i with
  | nil =>
    have h0 : skip = 0 := by simpa using h
    subst h0
    simp [rangeFrom]
  | cons b rest ih =>
    cases skip with
    | zero =>
      obtain ⟨h1, h2⟩ := decodeRune_append_start b rest c t hcont
      simp only [List.cons_append, rangeFrom, List.append_eq, h1, List.length_cons]
      rw [ih _ (i + 1) h2]
      have e : i + 1 + rest.length = i + (rest.length + 1) := by omega
      rw [e]
      simp only [rangeFrom]
    | succ k =>
      simp only [List.cons_append, rangeFrom, List.append_eq, List.length_cons]
      rw [ih k (i + 1) (by simpa using h)]
      have e : i + 1 + rest.length = i + (rest.length + 1) := by omega
      rw [e]
      simp only [rangeFrom]

/-- The runes read by `range` do not depend on the index the loop starts at. -/
theorem rangeFrom_snd_index (s : GoString) (skip i j : Nat) :
    (rangeFrom skip i s).map Prod.snd = (rangeFrom skip j s).map Prod.snd := by
  induction s generalizing skip i j with
  | nil => simp [rangeFrom]
  | cons b rest ih =>
    cases skip with
    | zero =>
      simp only [rangeFrom, List.map_cons, List.cons.injEq, true_and]
      exact ih _ _ _
    | succ k =>
      simp only [rangeFrom]
      exact ih _ _ _

/-- The runes of a string followed by a string that starts a new rune are the
runes of the first followed by the runes of the second. -/
theorem runes_append_start (q : GoString) (c : Nat) (t : GoString) (hcont : isCont c = false) :
    runes (q ++ c :: t) = runes q ++ runes (c :: t) := by
  unfold runes rangeString
  rw [rangeFrom_append_start c t hcont q 0 0 (Nat.zero_le _), List.map_append,
    rangeFrom_snd_index (c :: t) 0 (0 + q.length) 0]

theorem ToLower_append_start (tbl : Nat → Nat) (q : GoString) (c : Nat) (t : GoString)
    (hcont : isCont c = false) :
    ToLower tbl (q ++ c :: t) = ToLower tbl q ++ ToLower tbl (c :: t) := by
  unfold ToLower
  rw [runes_append_start q c t hcont, List.flatMap_append]

/-- The first byte of an encoded rune is not a continuation byte. -/
theorem encodeRune_start (r : Nat) :
    ∃ c t, encodeRune r = c :: t ∧ isCont c = false := by
  unfold encodeRune
  split_ifs with h1 h2 h3 h4
  · exact ⟨_, _, rfl, by simp only [isCont, Bool.and_eq_false_iff, decide_eq_false_iff_not]; omega⟩
  · exact ⟨_, _, rfl, by simp only [isCont, Bool.and_eq_false_iff, decide_eq_false_iff_not]; omega⟩
  · exact ⟨_, _, rfl, by decide⟩
  · exact ⟨_, _, rfl, by simp only [isCont, Bool.and_eq_false_iff, decide_eq_false_iff_not]; omega⟩
  · exact ⟨_, _, rfl, by simp only [isCont, Bool.and_eq_false_iff, decide_eq_false_iff_not]; omega⟩

/-- The Go string of a text is empty or starts with a byte that is not a
continuation byte. -/
theorem goString_start (s : String) :
    goString s = [] ∨ ∃ c t, goString s = c :: t ∧ isCont c = false := by
  unfold goString
  generalize s.toList = l
  cases l with
  | nil => exact Or.inl rfl
  | cons a rest =>
    obtain ⟨c, t, he, hc⟩ := encodeRune_start a.toNat
    refine Or.inr ⟨c, t ++ rest.flatMap (fun c => encodeRune c.toNat), ?_, hc⟩
    rw [List.flatMap_cons, he]
    rfl

/-- The filtered list for a query followed by the string of a text is a
sub-list of the filtered list for the query. -/
theorem filterItems_narrow_text {α : Type} [Stringable α] (tbl : Nat → Nat) (f : FuzzyFinder α)
    (s : String) :
    (filterItems tbl { f with query := f.query ++ goString s }).filteredItems <+
        (filterItems tbl f).filteredItems ∧
      (∀ text : GoString, fuzzyMatch text (ToLower tbl (f.query ++ goString s)) = true →
        fuzzyMatch text (ToLower tbl f.query) = true) := by
  rcases goString_start s with he | ⟨c, t, he, hc⟩
  · rw [he, List.append_nil]
    exact ⟨List.Sublist.refl _, fun _ h => h⟩
  · rw [he]
    have hm : ∀ text : GoString, fuzzyMatch text (ToLower tbl (f.query ++ c :: t)) = true →
        fuzzyMatch text (ToLower tbl f.query) = true := by
      intro text h
      rw [fuzzyMatch_iff_bytes] at h ⊢
      rw [ToLower_append_start tbl f.query c t hc] at h
      exact (List.sublist_append_left _ _).trans h
    refine ⟨?_, hm⟩
    rw [filterItems_filteredItems, filterItems_filteredItems]
    rw [if_neg (show ¬ f.query ++ c :: t = [] by simp)]
    by_cases hq : f.query = []
    · rw [if_pos hq]
      exact List.filter_sublist _
    · rw [if_neg hq]
      exact List.monotone_filter_right _ (fun a ha => hm _ ha)

/-- C18: for every item list, every query and every character typed (the
string of any key; `Update` appends it when it has one byte), the list
`filterItems` computes for the query followed by the character is a sub-list,
in the same order, of the list it computes for the query; every text that
matches the longer query matches the shorter one, and the length does not
increase. -/
theorem typing_narrows {α : Type} [Stringable α] (tbl : Nat → Nat) (f : FuzzyFinder α)
    (s : String) :
    (filterItems tbl { f with query := f.query ++ goString s }).filteredItems <+
        (filterItems tbl f).filteredItems ∧
      (∀ text : GoString, fuzzyMatch text (ToLower tbl (f.query ++ goString s)) = true →
        fuzzyMatch text (ToLower tbl f.query) = true) ∧
      (filterItems tbl { f with query := f.query ++ goString s }).filteredItems.length ≤
        (filterItems tbl f).filteredItems.length ∧
      ((goString s).length = 1 →
        ∃ g, Update tbl f (Msg.KeyMsg s) = some (g, Cmd.nil) ∧
          g.filteredItems <+ (filterItems tbl f).filteredItems) := by
  obtain ⟨hsub, hm⟩ := filterItems_narrow_text tbl f s
  exact ⟨hsub, hm, hsub.length_le, fun h => ⟨_, Update_char tbl f s h, hsub⟩⟩

/-- C18, witness: with alpha, beta, gamma and the query "a", the key "l"
narrows the three items to alpha. -/
theorem typing_narrows_witness :
    (filterItems caseExcerpt
        { NewFuzzyFinder [(⟨goString "alpha"⟩ : TeleportUser), ⟨goString "beta"⟩, ⟨goString "gamma"⟩] with
          query := goString "a" ++ goString "l" }).filteredItems = [⟨goString "alpha"⟩] ∧
      (filterItems caseExcerpt
        { NewFuzzyFinder [(⟨goString "alpha"⟩ : TeleportUser), ⟨goString "beta"⟩, ⟨goString "gamma"⟩] with
          query := goString "a" ++ goString "l" }).filteredItems <+
      (filterItems caseExcerpt
        { NewFuzzyFinder [(⟨goString "alpha"⟩ : TeleportUser), ⟨goString "beta"⟩, ⟨goString "gamma"⟩] with
          query := goString "a" }).filteredItems :=
  ⟨by decide,
    (typing_narrows caseExcerpt
      { NewFuzzyFinder [(⟨goString "alpha"⟩ : TeleportUser), ⟨goString "beta"⟩, ⟨goString "gamma"⟩] with
        query := goString "a" }
      "l").1⟩

/-- In a state that satisfies the invariant, the filtered list for the query
without its last byte is at least as long as the filtered list. -/
theorem dropLast_filtered_length {α : Type} [Stringable α] (tbl : Nat → Nat) (items : List α)
    (f : FuzzyFinder α) (h : Inv tbl items f) (hne : f.query ≠ []) :
    f.filteredItems.length ≤
      (filterItems tbl { f with query := f.query.dropLast }).filteredItems.length := by
  have hc : f.query.getLast hne < 0x80 := h.ascii _ (List.getLast_mem hne)
  have hsub := filterItems_narrow tbl { f with query := f.query.dropLast } (f.query.getLast hne) hc
  have hq : ({ f with query := f.query.dropLast } : FuzzyFinder α).query ++ [f.query.getLast hne] =
      f.query := List.dropLast_append_getLast hne
  have e : (filterItems tbl
      { ({ f with query := f.query.dropLast } : FuzzyFinder α) with
        query := ({ f with query := f.query.dropLast } : FuzzyFinder α).query ++
          [f.query.getLast hne] }).filteredItems = (filterItems tbl f).filteredItems :=
    filterItems_congr tbl f _ rfl hq
  have hle := hsub.length_le
  rw [e] at hle
  rw [h.filtered]
  exact hle

/-- C19: in every state reached from `NewFuzzyFinder(items)` by calls of
`Update`, Backspace returns no quit command and a state whose cursor is the
cursor before the key: the filtered list for the shortened query is at least
as long as the current one, so neither cursor adjustment of the branch
changes the cursor. -/
theorem backspace_keeps_cursor {α : Type} [Stringable α] (tbl : Nat → Nat) (items : List α)
    (f : FuzzyFinder α) (hr : Reachable tbl items f) :
    ∃ g, Update tbl f (Msg.KeyMsg "backspace") = some (g, Cmd.nil) ∧ g.cursor = f.cursor ∧
      f.filteredItems.length ≤ g.filteredItems.length := by
  have hinv := reachable_inv tbl items f hr
  by_cases hq : f.query = []
  · have key : ∀ s : String, s = "backspace" → Update tbl f (Msg.KeyMsg s) = some (f, Cmd.nil) := by
      intro s hs
      simp only [Update]
      rw [if_neg (by subst hs; decide), if_neg (by subst hs; decide),
        if_neg (by subst hs; decide), if_neg (by subst hs; decide), if_pos hs,
        if_neg (by simp [hq])]
    exact ⟨f, key "backspace" rfl, rfl, le_refl _⟩
  · obtain ⟨c, hU, hcase⟩ := Update_backspace tbl f hq
    have hlen := dropLast_filtered_length tbl items f hinv hq
    refine ⟨_, hU, ?_, hlen⟩
    show c = f.cursor
    have h0 := hinv.cursor_nonneg
    rcases hcase with ⟨h1, h2⟩ | ⟨h1, h2⟩
    · rw [h1] at hlen
      have he : f.filteredItems = [] := List.length_eq_zero.mp (by simpa using hlen)
      rw [h2, hinv.cursor_ok.2 he]
    · have hpos := List.length_pos.mpr h1
      by_cases he : f.filteredItems = []
      · have := hinv.cursor_ok.2 he
        omega
      · have := (hinv.cursor_ok.1 he).2
        omega

/-- C19, witness: alpha, beta, gamma after the keys "a", down, down: the
cursor is at 2, and Backspace empties the query and leaves the cursor at 2. -/
theorem backspace_keeps_cursor_witness :
    updates caseExcerpt
        (NewFuzzyFinder [(⟨goString "alpha"⟩ : TeleportUser), ⟨goString "beta"⟩, ⟨goString "gamma"⟩])
        [Msg.KeyMsg "a", Msg.KeyMsg "down", Msg.KeyMsg "down", Msg.KeyMsg "backspace"] =
      some { NewFuzzyFinder [(⟨goString "alpha"⟩ : TeleportUser), ⟨goString "beta"⟩, ⟨goString "gamma"⟩] with
        cursor := 2 } ∧
      ∃ g, Update caseExcerpt
          { NewFuzzyFinder [(⟨goString "alpha"⟩ : TeleportUser), ⟨goString "beta"⟩, ⟨goString "gamma"⟩] with
            query := goString "a", cursor := 2 }
          (Msg.KeyMsg "backspace") = some (g, Cmd.nil) ∧
        g.cursor = 2 ∧ 3 ≤ g.filteredItems.length :=
  ⟨by decide,
    backspace_keeps_cursor caseExcerpt
      [(⟨goString "alpha"⟩ : TeleportUser), ⟨goString "beta"⟩, ⟨goString "gamma"⟩]
      { NewFuzzyFinder [(⟨goString "alpha"⟩ : TeleportUser), ⟨goString "beta"⟩, ⟨goString "gamma"⟩] with
        query := goString "a", cursor := 2 }
      ⟨[Msg.KeyMsg "a", Msg.KeyMsg "down", Msg.KeyMsg "down"], by decide⟩⟩

/-! ## Failures of highlightMatches and of main -/

/-- C17, the code at the failing input: with the single item "İa" (bytes C4 B0
61) and the key "a", the item stays in the filtered list; its lowered display
string "ia" has two bytes, the loop of `highlightMatches` reaches the rune "a"
at byte offset 2 of the original text and reads `textLower[2]`, which is out
of range: the call panics, and so does `View`; the run of the program ends
with an error. -/
theorem highlightMatches_panics :
    goString "İa" = [0xC4, 0xB0, 0x61] ∧
      rangeString (goString "İa") = [(0, 0x130), (2, 0x61)] ∧
      ToLower caseExcerpt (goString "İa") = [0x69, 0x61] ∧
      updates caseExcerpt (NewFuzzyFinder [(⟨goString "İa"⟩ : TeleportUser)]) [Msg.KeyMsg "a"] =
        some { NewFuzzyFinder [(⟨goString "İa"⟩ : TeleportUser)] with query := goString "a" } ∧
      highlightMatches caseExcerpt
          { NewFuzzyFinder [(⟨goString "İa"⟩ : TeleportUser)] with query := goString "a" }
          (goString "İa") = none ∧
      View caseExcerpt
          { NewFuzzyFinder [(⟨goString "İa"⟩ : TeleportUser)] with query := goString "a" } = none ∧
      RunFuzzyFinder caseExcerpt [(⟨goString "İa"⟩ : TeleportUser)] (some [Msg.KeyMsg "a"]) =
        RunResult.error := by
  decide

/-- C20, the code at the failing inputs: the database finder commits the
database "orders" with Enter; then the user finder is cancelled with Escape,
or receives Enter on an empty list of allowed users; it returns no selection
and no error, and `main` dereferences the nil pointer `selectedDBUser`. -/
theorem main_dereferences_nil :
    RunFuzzyFinder caseExcerpt [ordersDB [⟨goString "alice"⟩]] (some [Msg.KeyMsg "enter"]) =
        RunResult.value (some (ordersDB [⟨goString "alice"⟩])) ∧
      RunFuzzyFinder caseExcerpt [(⟨goString "alice"⟩ : TeleportUser)] (some [Msg.KeyMsg "esc"]) =
        RunResult.value none ∧
      main caseExcerpt (some [ordersDB [⟨goString "alice"⟩]])
        (some [Msg.KeyMsg "enter"]) (some [Msg.KeyMsg "esc"]) = MainOutcome.nilDereference ∧
      RunFuzzyFinder caseExcerpt ([] : List TeleportUser) (some [Msg.KeyMsg "enter"]) =
        RunResult.value none ∧
      main caseExcerpt (some [ordersDB []])
        (some [Msg.KeyMsg "enter"]) (some [Msg.KeyMsg "enter"]) = MainOutcome.nilDereference ∧
      main caseExcerpt (some [ordersDB [⟨goString "alice"⟩]])
        (some [Msg.KeyMsg "esc"]) (some [Msg.KeyMsg "enter"]) = MainOutcome.noDatabaseSelected := by
  decide

end TeleportUI
